import Mathlib

/-!
Verification of the pennywise-fetch budgeting and backup-reconciliation
engines: a shallow embedding of `app/api/budget.py` and
`app/services/importer.py` over an explicit database state, with theorems
about the budget ledger operations (distribute / transfer / revert) and the
snapshot reconciliation pass (merge, update-then-reapply, soft delete).

Modelling conventions:
* Monetary values are exact decimals at scale 2, represented as an integer
  number of cents (`Cents := Int`).  All stored `Numeric(20, 2)` columns
  round-trip through the store at this scale.
* `db.commit()` makes the session state durable; raising an HTTP error
  before a commit leaves the durable state unchanged (the session is rolled
  back when it is closed), so an operation that fails returns only the
  error and the durable state is the input state.
* Rows are identified by their integer primary keys; the store guarantees
  key uniqueness, captured by the `DbWF` well-formedness predicate.
* Snapshot entities (pydantic models) carry only the fields that the
  reconciliation logic reads; numeric snapshot fields are *strings* in the
  source (`TransactionEntity.amount : Optional[str]`), which matters for
  the merge's change detection: a Python `Decimal` (the stored value) never
  compares equal to a `str` (the incoming value), so a provided amount
  always registers as a difference.
-/

deriving instance DecidableEq for Except

namespace Pennywise

/-- Exact money at scale 2: an integer count of cents. -/
abbrev Cents := Int

/-- Modelled from the spec: the `Bucket` entity (id, unique display name,
nullable monthly target allocation, nullable running balance).  Its model
class is referenced by `app/api/budget.py` and `app/services/importer.py`
but its declaration is not part of the provided sources. -/
structure Bucket where
  id : Nat
  name : String
  monthly_amount : Option Cents
  total_amount : Option Cents
  deriving DecidableEq

/-- `Category` row (`app/models.py`): unique name, plus the owning-bucket
link used by the budget engine (`bucket_id`, modelled from the spec's
"belongs to exactly one Bucket" and from its uses in the sources). -/
structure Category where
  id : Nat
  name : String
  bucket_id : Option Nat
  deriving DecidableEq

/-- `Transaction` row (`app/models.py`), restricted to the columns read by
the reconciliation and budget logic. -/
structure Transaction where
  id : Nat
  amount : Option Cents
  merchant_name : String
  category : String
  transaction_type : Option String
  transaction_hash : Option String
  is_deleted : Bool
  deriving DecidableEq

/-- Modelled from the spec: `DistributionEvent` (id, source transaction id,
total amount distributed, reverted flag); declaration absent from the
provided sources, fields taken from `app/api/budget.py`'s uses. -/
structure DistributionEvent where
  id : Nat
  transaction_id : Nat
  total_amount : Cents
  is_reverted : Bool
  deriving DecidableEq

/-- Modelled from the spec: `DistributionLog` (parent event id, target
bucket id, signed amount applied); declaration absent from the provided
sources, fields taken from `app/api/budget.py`'s uses. -/
structure DistributionLog where
  event_id : Nat
  bucket_id : Nat
  amount : Cents
  deriving DecidableEq

/-- `ImportLog` row (`app/models.py`): filename, status
(STARTED/COMPLETED/FAILED), error detail.  Timestamps are out of scope. -/
structure ImportLog where
  id : Nat
  filename : String
  status : String
  error_message : Option String
  deriving DecidableEq

/-- `ImportRowLog` row (`app/models.py`), restricted to the entity foreign
keys exercised by the embedded collections. -/
structure ImportRowLog where
  ilog_id : Nat
  action : String
  table_name : String
  transaction_id : Option Nat := none
  category_id : Option Nat := none
  deriving DecidableEq

/-- The durable store: the entity tables plus fresh-key counters for the
autoincrement primary keys. -/
structure Db where
  buckets : List Bucket := []
  categories : List Category := []
  transactions : List Transaction := []
  events : List DistributionEvent := []
  dlogs : List DistributionLog := []
  ilogs : List ImportLog := []
  rlogs : List ImportRowLog := []
  nextBucketId : Nat := 1
  nextCategoryId : Nat := 1
  nextTransactionId : Nat := 1
  nextEventId : Nat := 1
  nextImportLogId : Nat := 1
  deriving DecidableEq

/-- An HTTP error as raised by `fastapi.HTTPException`. -/
structure HErr where
  status : Nat
  detail : String
  deriving DecidableEq

/-- Python truthiness of an optional string (`None` and `""` are falsy). -/
def truthyStr : Option String → Bool
  | none => false
  | some s => !s.isEmpty

/-- Python truthiness of an optional Decimal (`None` and `0` are falsy). -/
def truthyAmt : Option Cents → Bool
  | none => false
  | some a => a != 0

/-- Update the bucket row with primary key `bid` (unique in a well-formed
store). -/
def updBucket (bid : Nat) (f : Bucket → Bucket) (bs : List Bucket) : List Bucket :=
  bs.map fun b => if b.id == bid then f b else b

/-- The observable balance of the bucket with key `bid` in a bucket table:
a missing bucket or a `NULL` `total_amount` both read as 0 (the code always
reads the column as `(bucket.total_amount or 0)`). -/
def balOf (bs : List Bucket) (bid : Nat) : Cents :=
  match bs.find? (fun b => b.id == bid) with
  | some b => b.total_amount.getD 0
  | none => 0

/-- The observable balance of the bucket with key `bid`. -/
def bucketBalance (db : Db) (bid : Nat) : Cents :=
  balOf db.buckets bid

/-- Two-digit zero padding of a value below 100. -/
def pad2 (n : Nat) : String :=
  if n < 10 then "0" ++ toString n else toString n

/-- `str()` of a Python `Decimal` of scale 2 (exponent -2), as produced for
every `Numeric(precision, scale=2)` column read from the store: always two
digits after the point. -/
def render2 (c : Cents) : String :=
  (if c < 0 then "-" else "") ++ toString (c.natAbs / 100) ++ "." ++ pad2 (c.natAbs % 100)

/-- The apostrophe character, used inside source error strings. -/
def apos : String := String.singleton (Char.ofNat 39)

/-- `str()` of the `total_needed` sum in `distribute_income`
(`sum((b.monthly_amount or Decimal(0)) for b in buckets if b.name != "Others")`):
the sum is the plain int `0` when no non-"Others" bucket exists, and a
`Decimal` whose exponent is the minimum over its terms otherwise — so it
renders with two decimal places exactly when at least one non-"Others"
bucket has a non-NULL `monthly_amount`, and as `"0"` otherwise. -/
def neededStr (buckets : List Bucket) : String :=
  if (buckets.filter fun b => b.name != "Others").any (fun b => b.monthly_amount.isSome) then
    render2 (((buckets.filter fun b => b.name != "Others").map
      (fun b => b.monthly_amount.getD 0)).sum)
  else "0"

/-- `total_needed` in `distribute_income` (`app/api/budget.py` line 124). -/
def totalNeeded (buckets : List Bucket) : Cents :=
  ((buckets.filter fun b => b.name != "Others").map (fun b => b.monthly_amount.getD 0)).sum

/-- The `InsufficientFunds` message of `distribute_income`
(`app/api/budget.py` line 127). -/
def insufficientMsg (buckets : List Bucket) (avail : Cents) : String :=
  "Insufficient funds. Needed: " ++ neededStr buckets ++ ", Available: " ++ render2 avail

/-- The `InvalidState` message of `distribute_income`
(`app/api/budget.py` line 112). -/
def notIncomeMsg : String :=
  "Transaction must be of category " ++ apos ++ "Income" ++ apos ++
    " and type " ++ apos ++ "INCOME" ++ apos

/-- `app/api/budget.py` lines 114-122: find the first bucket named
"Others", creating (and flushing) one if absent; returns its id and the
session state. -/
def ensureOthers (db : Db) : Nat × Db :=
  match db.buckets.find? (fun b => b.name == "Others") with
  | some b => (b.id, db)
  | none =>
      (db.nextBucketId,
       { db with
           buckets := db.buckets ++ [⟨db.nextBucketId, "Others", none, none⟩],
           nextBucketId := db.nextBucketId + 1 })

/-- Result payload of a successful `distribute_income`. -/
structure DistributeResult where
  allocated : Cents
  remainder : Cents
  deriving DecidableEq

/-- `POST /budget/distribute` (`app/api/budget.py` lines 105-169).
An `Except.error` means the HTTP error was raised with no commit, leaving
the durable state unchanged.  A `NULL` stored amount would make the Python
comparison `transaction.amount < total_needed` raise `TypeError`, which
propagates as an unhandled server error with no commit; modelled as a
500. -/
def distribute_income (tid : Nat) (db : Db) : Except HErr (Db × DistributeResult) :=
  match db.transactions.find? (fun t => t.id == tid) with
  | none => .error ⟨404, "Transaction not found"⟩
  | some t =>
    if t.category != "Income" || t.transaction_type != some "INCOME" then
      .error ⟨400, notIncomeMsg⟩
    else
      match t.amount with
      | none => .error ⟨500, "TypeError"⟩
      | some a =>
        let od := ensureOthers db
        let othersId := od.1
        let db1 := od.2
        if a < totalNeeded db1.buckets then
          .error ⟨400, insufficientMsg db1.buckets a⟩
        else
          let eventId := db1.nextEventId
          let allocated := totalNeeded db1.buckets
          let remainder := a - allocated
          let allocLogs :=
            ((db1.buckets.filter fun b =>
                b.name != "Others" && decide (0 < b.monthly_amount.getD 0)).map
              fun b => (⟨eventId, b.id, b.monthly_amount.getD 0⟩ : DistributionLog))
          let buckets2 := db1.buckets.map fun b =>
            if b.name != "Others" then
              { b with total_amount := some (b.total_amount.getD 0 + b.monthly_amount.getD 0) }
            else b
          let buckets3 := updBucket othersId
            (fun b => { b with total_amount := some (b.total_amount.getD 0 + remainder) }) buckets2
          let remLogs := if 0 < remainder then [(⟨eventId, othersId, remainder⟩ : DistributionLog)] else []
          .ok ({ db1 with
                   buckets := buckets3,
                   events := db1.events ++ [⟨eventId, t.id, a, false⟩],
                   dlogs := db1.dlogs ++ allocLogs ++ remLogs,
                   nextEventId := eventId + 1 },
               ⟨allocated, remainder⟩)

/-- Modelled from the spec: the `FundTransfer` request schema (source
bucket, destination bucket, optional amount, transfer-all flag); its
declaration is absent from the provided sources, fields taken from
`app/api/budget.py`'s uses. -/
structure FundTransfer where
  from_bucket_id : Nat
  to_bucket_id : Nat
  amount : Option Cents
  transfer_all : Bool
  deriving DecidableEq

/-- `POST /budget/transfer` (`app/api/budget.py` lines 171-198).  The
`elif transfer.amount:` branch tests Python truthiness, so a provided
amount of exactly 0 falls through to the `BadRequest` branch.  With
`transfer_all` set and a `NULL` source balance, `amount_to_transfer` is
`None` and the subsequent `<` comparison raises `TypeError` (unhandled,
no commit); modelled as a 500. -/
def transfer_funds (tr : FundTransfer) (db : Db) : Except HErr (Db × Cents) :=
  match db.buckets.find? (fun b => b.id == tr.from_bucket_id),
        db.buckets.find? (fun b => b.id == tr.to_bucket_id) with
  | some fromB, some _ =>
    let amt? : Except HErr Cents :=
      if tr.transfer_all then
        match fromB.total_amount with
        | none => .error ⟨500, "TypeError"⟩
        | some amt => .ok amt
      else
        match tr.amount with
        | some a => if a != 0 then .ok a else .error ⟨400, "Amount must be provided if transfer_all is False"⟩
        | none => .error ⟨400, "Amount must be provided if transfer_all is False"⟩
    match amt? with
    | .error e => .error e
    | .ok amt =>
      if fromB.total_amount.getD 0 < amt then
        .error ⟨400, "Insufficient funds in source bucket"⟩
      else
        let bs1 := updBucket tr.from_bucket_id
          (fun b => { b with total_amount := some (b.total_amount.getD 0 - amt) }) db.buckets
        let bs2 := updBucket tr.to_bucket_id
          (fun b => { b with total_amount := some (b.total_amount.getD 0 + amt) }) bs1
        .ok ({ db with buckets := bs2 }, amt)
  | _, _ => .error ⟨404, "One or both buckets not found"⟩

/-- The `DistributionLog` rows of event `eid`, in insertion order
(`event.logs`). -/
def eventLogs (db : Db) (eid : Nat) : List DistributionLog :=
  db.dlogs.filter fun l => l.event_id == eid

/-- One iteration of the revert loop (`app/api/budget.py` lines 238-241):
look the log's bucket up and subtract the logged amount; a missing bucket
is skipped. -/
def applyRevertLog (db : Db) (l : DistributionLog) : Db :=
  match db.buckets.find? (fun b => b.id == l.bucket_id) with
  | some _ =>
      { db with buckets := (updBucket l.bucket_id
          (fun b => { b with total_amount := some (b.total_amount.getD 0 - l.amount) }) db.buckets) }
  | none => db

/-- `POST /budget/distributions/{event_id}/revert`
(`app/api/budget.py` lines 227-248). -/
def revert_distribution (eid : Nat) (db : Db) : Except HErr Db :=
  match db.events.find? (fun e => e.id == eid) with
  | none => .error ⟨404, "Distribution event not found"⟩
  | some e =>
    if e.is_reverted then
      .error ⟨400, "Distribution already reverted"⟩
    else
      let db1 := (eventLogs db eid).foldl applyRevertLog db
      .ok { db1 with events := db1.events.map fun e2 =>
              if e2.id == eid then { e2 with is_reverted := true } else e2 }

/-! ## Backup reconciliation engine (`app/services/importer.py`)

The embedded snapshot carries the two collections that the reconciliation
logic treats specially (categories and transactions); the remaining
collections follow the same generic merge but touch no bucket state.
Snapshot records are modelled without explicit source primary keys (the
store assigns fresh ids on insert), and the theorems assume records carry
the NOT-NULL columns (`merchant_name`, `category`) whose absence would
abort the whole import with an `IntegrityError` in Python. -/

/-- `CategoryEntity` (`app/schemas.py`), restricted to the natural key used
by the merge.  An unset field is absent from `item.dict(exclude_unset=True)`. -/
structure CategoryEntity where
  name : Option String := none
  deriving DecidableEq

/-- `TransactionEntity` (`app/schemas.py`), restricted to the columns the
reconciliation logic reads.  In the source the `amount` field is an
`Optional[str]`; here it carries the numeric value of that string, and the
merge's change detection accounts for its `str` runtime type. -/
structure TransactionEntity where
  transaction_hash : Option String := none
  merchant_name : Option String := none
  category : Option String := none
  transaction_type : Option String := none
  amount : Option Cents := none
  is_deleted : Option Bool := none
  deriving DecidableEq

/-- `process_entity_group`'s change detection for a matched transaction
(`app/services/importer.py` lines 125-128): each *provided* field is
compared with `getattr(existing, k) != v`.  String columns compare by
value; the boolean column compares numerically with the snapshot's 0/1
(`True == 1` in Python); the stored `amount` is a `Decimal` (or `None`)
while the provided value is a `str`, and Python's `!=` between them is
always `True`, so a provided amount always counts as changed. -/
def txnChanged (t : Transaction) (r : TransactionEntity) : Bool :=
  (match r.merchant_name with | some m => t.merchant_name != m | none => false) ||
  (match r.category with | some c => t.category != c | none => false) ||
  (match r.transaction_type with | some ty => t.transaction_type != some ty | none => false) ||
  r.amount.isSome ||
  (match r.is_deleted with | some b => t.is_deleted != b | none => false)

/-- The field overwrite of an update (`setattr(existing, k, v)` for every
provided field, `app/services/importer.py` lines 125-128). -/
def txnOverwrite (t : Transaction) (r : TransactionEntity) : Transaction :=
  { t with
      merchant_name := r.merchant_name.getD t.merchant_name,
      category := r.category.getD t.category,
      transaction_type := (match r.transaction_type with | some ty => some ty | none => t.transaction_type),
      amount := (match r.amount with | some a => some a | none => t.amount),
      is_deleted := r.is_deleted.getD t.is_deleted }

/-- The truthiness guard of the revert logic (`if txn.amount and
txn.category and txn.transaction_type in [EXPENSE, INCOME]`). -/
def revGuard (am : Option Cents) (cn : String) (ty : Option String) : Bool :=
  truthyAmt am && !cn.isEmpty && (ty == some "EXPENSE" || ty == some "INCOME")

/-- Reverse a transaction effect from its bucket, shared by the
update-revert (`app/services/importer.py` lines 141-150) and the
soft-delete revert (lines 51-60), which are letter-for-letter the same
logic: guard on the truthiness of amount and category name and on the type
being EXPENSE or INCOME, resolve the category by name, require its bucket
link, then add back the amount for EXPENSE or subtract it for INCOME. -/
def revertOldEffect (db : Db) (oldAmount : Option Cents) (oldCat : String)
    (oldType : Option String) : Db :=
  if revGuard oldAmount oldCat oldType then
    match db.categories.find? (fun c => c.name == oldCat) with
    | none => db
    | some cat =>
      match cat.bucket_id with
      | none => db
      | some bid =>
        let delta := if oldType == some "EXPENSE" then oldAmount.getD 0 else -(oldAmount.getD 0)
        { db with buckets := (updBucket bid
            (fun b => { b with total_amount := some (b.total_amount.getD 0 + delta) }) db.buckets) }
  else db

/-- The truthiness guard of the apply logic (`if t_amount and
t_category_name and t_type in [EXPENSE, INCOME]`, on the *record's*
fields). -/
def applyGuard (r : TransactionEntity) : Bool :=
  truthyAmt r.amount && truthyStr r.category &&
    (r.transaction_type == some "EXPENSE" || r.transaction_type == some "INCOME")

/-- Apply an incoming transaction record's effect (`app/services/importer.py`
lines 182-214, shared by ADDED and UPDATED): guard on the truthiness of the
*record's* amount and category and on its type being EXPENSE or INCOME;
silently skip when the category is unresolved; lazily create and link a
bucket when the category has none; then subtract the amount for EXPENSE or
add it for INCOME. -/
def applyNewEffect (db : Db) (r : TransactionEntity) : Db :=
  if applyGuard r then
    match db.categories.find? (fun c => c.name == r.category.getD "") with
    | none => db
    | some cat =>
      let ensured : Nat × Db :=
        match cat.bucket_id with
        | some bid => (bid, db)
        | none =>
            (db.nextBucketId,
             { db with
                 buckets := db.buckets ++ [⟨db.nextBucketId, cat.name, none, none⟩],
                 categories := (db.categories.map fun c =>
                   if c.id == cat.id then { c with bucket_id := some db.nextBucketId } else c),
                 nextBucketId := db.nextBucketId + 1 })
      let bid := ensured.1
      let db1 := ensured.2
      let delta := if r.transaction_type == some "EXPENSE" then -(r.amount.getD 0) else r.amount.getD 0
      { db1 with buckets := (updBucket bid
          (fun b => { b with total_amount := some (b.total_amount.getD 0 + delta) }) db1.buckets) }
  else db

/-- One record of the Category merge (`process_entity_group` with natural
key `name`): skip silently when the key is absent; a match compares only
the provided field (the name itself, which matched) and is `SKIPPED`; a
miss inserts the category and — Category-specific rule, lines 165-180 —
creates a same-named bucket and links it. -/
def processCategoryItem (logId : Nat) (db : Db) (item : CategoryEntity) : Db :=
  match item.name with
  | none => db
  | some nm =>
    match db.categories.find? (fun c => c.name == nm) with
    | some c =>
        { db with rlogs := db.rlogs ++
            [{ ilog_id := logId, action := "SKIPPED", table_name := "pennywise_categories",
               category_id := some c.id }] }
    | none =>
        let cid := db.nextCategoryId
        let bid := db.nextBucketId
        { db with
            categories := db.categories ++ [⟨cid, nm, some bid⟩],
            buckets := db.buckets ++ [⟨bid, nm, none, none⟩],
            nextCategoryId := cid + 1,
            nextBucketId := bid + 1,
            rlogs := db.rlogs ++
              [{ ilog_id := logId, action := "ADDED", table_name := "pennywise_categories",
                 category_id := some cid }] }

/-- The Category group merge (`process_entity_group(db, import_log,
Category, snapshot.categories, [name], category_id)`). -/
def processCategories (logId : Nat) (db : Db) (items : List CategoryEntity) : Db :=
  items.foldl (processCategoryItem logId) db

/-- A DELETED/ADDED/UPDATED/SKIPPED row log for a transaction. -/
def txnRowLog (logId : Nat) (action : String) (tid : Nat) : ImportRowLog :=
  { ilog_id := logId, action := action, table_name := "pennywise_transactions",
    transaction_id := some tid }

/-- One record of the Transaction merge (`process_entity_group` with
natural key `transaction_hash`, plus the Transaction-specific
revert-then-apply logic of `app/services/importer.py` lines 116-223):
* a missing key skips the record silently;
* a match (the query does not filter on `is_deleted`) captures the old
  amount/category/type, overwrites the provided fields, and if anything
  changed (`UPDATED`) first reverses the old effect then applies the new
  one; otherwise `SKIPPED`;
* a miss inserts the row (`ADDED`, store-assigned id, `is_deleted`
  defaulting to false) and applies the new effect. -/
def processTransactionItem (logId : Nat) (db : Db) (r : TransactionEntity) : Db :=
  match r.transaction_hash with
  | none => db
  | some h =>
    match db.transactions.find? (fun t => t.transaction_hash == some h) with
    | some t =>
      if txnChanged t r then
        let db1 := { db with transactions := (db.transactions.map fun u =>
          if u.id == t.id then txnOverwrite u r else u) }
        let db2 := revertOldEffect db1 t.amount t.category t.transaction_type
        let db3 := applyNewEffect db2 r
        { db3 with rlogs := db3.rlogs ++ [txnRowLog logId "UPDATED" t.id] }
      else
        { db with rlogs := db.rlogs ++ [txnRowLog logId "SKIPPED" t.id] }
    | none =>
      let tid := db.nextTransactionId
      let newT : Transaction :=
        { id := tid, amount := r.amount, merchant_name := r.merchant_name.getD "",
          category := r.category.getD "", transaction_type := r.transaction_type,
          transaction_hash := some h, is_deleted := r.is_deleted.getD false }
      let db1 := { db with transactions := db.transactions ++ [newT],
                           nextTransactionId := tid + 1 }
      let db2 := applyNewEffect db1 r
      { db2 with rlogs := db2.rlogs ++ [txnRowLog logId "ADDED" tid] }

/-- The Transaction group merge. -/
def processTransactions (logId : Nat) (db : Db) (items : List TransactionEntity) : Db :=
  items.foldl (processTransactionItem logId) db

/-- `transaction_ids_in_backup` (`app/services/importer.py` line 39): the
truthy dedup keys of the incoming transaction collection. -/
def snapHashes (items : List TransactionEntity) : List String :=
  (items.filterMap fun r => r.transaction_hash).filter fun h => !h.isEmpty

/-- Whether a stored transaction is picked up by the soft-delete pass
(`app/services/importer.py` line 47): its hash is truthy and absent from
the snapshot's key set. -/
def isSoftDeleteTarget (hashes : List String) (t : Transaction) : Bool :=
  truthyStr t.transaction_hash && !(hashes.contains (t.transaction_hash.getD ""))

/-- One iteration of the soft-delete loop (`app/services/importer.py` lines
46-71) over a previously materialized non-deleted row `t`: mark it deleted,
reverse its effect from its bucket, and log a `DELETED` row. -/
def softDeleteStep (hashes : List String) (logId : Nat) (db : Db) (t : Transaction) : Db :=
  if isSoftDeleteTarget hashes t then
    let db1 := { db with transactions := (db.transactions.map fun u =>
      if u.id == t.id then { u with is_deleted := true } else u) }
    let db2 := revertOldEffect db1 t.amount t.category t.transaction_type
    { db2 with rlogs := db2.rlogs ++ [txnRowLog logId "DELETED" t.id] }
  else db

/-- The soft-delete pass (`app/services/importer.py` lines 45-71): the
query materializes the currently non-deleted rows once, before the loop
body mutates anything; each row is then examined with its values at query
time (no loop iteration touches another row's columns). -/
def softDeletePass (hashes : List String) (logId : Nat) (db : Db) : Db :=
  (db.transactions.filter fun t => !t.is_deleted).foldl (softDeleteStep hashes logId) db

/-- The embedded `DatabaseSnapshot` (`app/schemas.py`). -/
structure DatabaseSnapshot where
  categories : List CategoryEntity := []
  transactions : List TransactionEntity := []
  deriving DecidableEq

/-- The merge phase of `process_backup` (`app/services/importer.py` lines
30-80) over the embedded collections, in source order: the Category group,
then the Transaction group (skipped entirely when the collection is empty,
which an empty fold also models), then the soft-delete pass keyed on the
snapshot's truthy hashes. -/
def runMerge (snap : DatabaseSnapshot) (logId : Nat) (db : Db) : Db :=
  let d1 := processCategories logId db snap.categories
  let d2 := processTransactions logId d1 snap.transactions
  softDeletePass (snapHashes snap.transactions) logId d2

/-- `app/services/importer.py` lines 17-20: the STARTED `ImportLog` row,
committed before any merge work so that its id is durable on its own. -/
def startedState (filename : String) (db : Db) : Db :=
  { db with ilogs := db.ilogs ++ [⟨db.nextImportLogId, filename, "STARTED", none⟩],
            nextImportLogId := db.nextImportLogId + 1 }

/-- Set the status (and error detail) of the import log row `lid`. -/
def setLogStatus (ls : List ImportLog) (lid : Nat) (st : String) (err : Option String) :
    List ImportLog :=
  ls.map fun l => if l.id == lid then { l with status := st, error_message := err } else l

/-- The `process_backup` control flow (`app/services/importer.py` lines
15-98), parameterized by the merge phase so that a merge-phase exception
(any `Except.error`) can be modelled: create and commit the STARTED
`ImportLog` (durable on its own), run the merge; on success set the log
COMPLETED and commit everything; on an exception roll the merge phase back
to the post-STARTED durable state, then in a separate transaction mark the
already-committed log row FAILED with the captured message, and re-raise.
Returns the final durable state and the propagated exception, if any. -/
def process_backup_gen (merge : Nat → Db → Except String Db) (filename : String)
    (db : Db) : Db × Option String :=
  let logId := db.nextImportLogId
  let d1 := startedState filename db
  match merge logId d1 with
  | .ok d2 => ({ d2 with ilogs := setLogStatus d2.ilogs logId "COMPLETED" none }, none)
  | .error e => ({ d1 with ilogs := setLogStatus d1.ilogs logId "FAILED" (some e) }, some e)

/-- `process_backup` itself: a backup without a database section is marked
COMPLETED with no row logs; otherwise the embedded merge runs (it is total,
so this instance never raises). -/
def process_backup (snap : Option DatabaseSnapshot) (filename : String) (db : Db) :
    Db × Option String :=
  process_backup_gen
    (fun logId d1 =>
      match snap with
      | none => Except.ok d1
      | some s => Except.ok (runMerge s logId d1))
    filename db

/-- The durable state after one successful reconciliation run of a
snapshot. -/
def applySnapshot (snap : DatabaseSnapshot) (db : Db) : Db :=
  (process_backup (some snap) "backup.json" db).1

/-! ## Store well-formedness

Invariants the relational store guarantees: primary keys are unique and
below the autoincrement counters, the `transaction_hash` unique index
holds, and every category's `bucket_id` is a valid foreign key. -/

/-- Well-formedness of the durable store. -/
structure DbWF (db : Db) : Prop where
  bucketIds : (db.buckets.map Bucket.id).Nodup
  catIds : (db.categories.map Category.id).Nodup
  txnIds : (db.transactions.map Transaction.id).Nodup
  eventIds : (db.events.map DistributionEvent.id).Nodup
  bucketFresh : ∀ b ∈ db.buckets, b.id < db.nextBucketId
  catFresh : ∀ c ∈ db.categories, c.id < db.nextCategoryId
  txnFresh : ∀ t ∈ db.transactions, t.id < db.nextTransactionId
  catBucketLink : ∀ c ∈ db.categories, ∀ bid, c.bucket_id = some bid →
    bid ∈ db.buckets.map Bucket.id
  txnHashes : (db.transactions.filterMap Transaction.transaction_hash).Nodup

/-! ## Generic helper lemmas -/

/-- `find?` commutes with a map that does not disturb the predicate. -/
theorem find?_map_comm {α : Type} (φ : α → α) (p : α → Bool) (hp : ∀ a, p (φ a) = p a)
    (l : List α) : (l.map φ).find? p = (l.find? p).map φ := by
  rw [List.find?_map]
  have hcomp : p ∘ φ = p := funext fun a => hp a
  rw [hcomp]

/-- Balance read-back through `updBucket`: the updated row reads through
`f`, every other row is untouched. -/
theorem balOf_updBucket (bs : List Bucket) (bid bid' : Nat) (f : Bucket → Bucket)
    (hf : ∀ b, (f b).id = b.id) :
    balOf (updBucket bid f bs) bid' =
      match bs.find? (fun b => b.id == bid') with
      | some b => if b.id == bid then (f b).total_amount.getD 0 else b.total_amount.getD 0
      | none => 0 := by
  unfold balOf updBucket
  rw [find?_map_comm (fun b => if b.id == bid then f b else b) _
    (by intro b; by_cases h : b.id == bid <;> simp [h, hf])]
  cases hfind : bs.find? (fun b => b.id == bid') with
  | none => rfl
  | some b =>
    by_cases h : b.id = bid <;> simp [h]

/-- Balance read-back through a map that rewrites every row but preserves
ids. -/
theorem balOf_map (bs : List Bucket) (bid : Nat) (φ : Bucket → Bucket)
    (hφ : ∀ b, (φ b).id = b.id) :
    balOf (bs.map φ) bid =
      match bs.find? (fun b => b.id == bid) with
      | some b => (φ b).total_amount.getD 0
      | none => 0 := by
  unfold balOf
  rw [find?_map_comm φ _ (by intro b; simp [hφ])]
  cases hfind : bs.find? (fun b => b.id == bid) <;> rfl

/-! ## Claim theorems: budget ledger error handling -/

/-- C10: in `transfer_funds`, when `transfer_all` is false, a provided
amount of exactly 0 is treated the same as an absent amount — the
`elif transfer.amount:` truthiness test fails for 0, so the call is
rejected with `BadRequest` ("Amount must be provided if transfer_all is
False") rather than performing a zero-amount transfer.  The error is
raised before any mutation, so the durable state is unchanged. -/
theorem transfer_zero_amount_rejected (tr : FundTransfer) (db : Db)
    (hall : tr.transfer_all = false) (hamt : tr.amount = some 0)
    (hfrom : (db.buckets.find? fun b => b.id == tr.from_bucket_id).isSome = true)
    (hto : (db.buckets.find? fun b => b.id == tr.to_bucket_id).isSome = true) :
    transfer_funds tr db =
      .error ⟨400, "Amount must be provided if transfer_all is False"⟩ := by
  obtain ⟨fb, hfb⟩ := Option.isSome_iff_exists.mp hfrom
  obtain ⟨tb, htb⟩ := Option.isSome_iff_exists.mp hto
  unfold transfer_funds
  rw [hfb, htb]
  simp [hall, hamt]

/-- Fixture for the C10 witness: two buckets. -/
def dbTwoBuckets : Db :=
  { buckets := [⟨1, "A", none, some 500⟩, ⟨2, "B", none, some 0⟩], nextBucketId := 3 }

/-- C10 witness: a zero amount with `transfer_all = false` on two existing
buckets is rejected with the BadRequest message. -/
theorem transfer_zero_amount_rejected_witness :
    transfer_funds ⟨1, 2, some 0, false⟩ dbTwoBuckets =
      .error ⟨400, "Amount must be provided if transfer_all is False"⟩ :=
  transfer_zero_amount_rejected ⟨1, 2, some 0, false⟩ dbTwoBuckets rfl rfl
    (by decide) (by decide)

/-- C8: calling `revert_distribution` on an event whose reverted flag is
already true fails with `InvalidState` (400, "Distribution already
reverted").  The error is raised before any mutation and nothing is
committed, so every bucket balance is unchanged; and no code path ever
resets `is_reverted` to false, so a reverted event can never be reverted
again. -/
theorem revert_already_reverted_rejected (eid : Nat) (db : Db) (e : DistributionEvent)
    (hfind : db.events.find? (fun x => x.id == eid) = some e)
    (hrev : e.is_reverted = true) :
    revert_distribution eid db = .error ⟨400, "Distribution already reverted"⟩ := by
  unfold revert_distribution
  rw [hfind]
  simp [hrev]

/-- Fixture for the C8 witness: one already-reverted event. -/
def dbRevertedEvent : Db :=
  { buckets := [⟨1, "Food", none, some 1000⟩],
    events := [⟨1, 7, 1000, true⟩],
    dlogs := [⟨1, 1, 1000⟩],
    nextBucketId := 2, nextEventId := 2 }

/-- C8 witness: the second revert of event 1 is rejected. -/
theorem revert_already_reverted_rejected_witness :
    revert_distribution 1 dbRevertedEvent =
      .error ⟨400, "Distribution already reverted"⟩ :=
  revert_already_reverted_rejected 1 dbRevertedEvent ⟨1, 7, 1000, true⟩ (by decide) rfl

/-- C9: `process_backup` commits a STARTED `ImportLog` before any merge
work (first conjunct: the state handed to the merge phase already holds
the committed STARTED row); and when the merge phase raises, all
merge-phase mutations are rolled back — the final durable state is the
post-STARTED state except for the log row — while a separate transaction
marks that already-committed row FAILED with the captured message, and the
exception propagates to the caller (the `some e` component). -/
theorem process_backup_failure_recovery (merge : Nat → Db → Except String Db)
    (filename : String) (db : Db) (e : String)
    (hfail : merge db.nextImportLogId (startedState filename db) = Except.error e) :
    (startedState filename db).ilogs =
        db.ilogs ++ [⟨db.nextImportLogId, filename, "STARTED", none⟩] ∧
    process_backup_gen merge filename db =
      ({ startedState filename db with
           ilogs := setLogStatus (startedState filename db).ilogs db.nextImportLogId
             "FAILED" (some e) }, some e) := by
  refine ⟨rfl, ?_⟩
  unfold process_backup_gen
  simp only [hfail]

/-- C9 witness: a merge phase that always raises "boom" on the empty
store. -/
theorem process_backup_failure_recovery_witness :
    (startedState "f.json" ({} : Db)).ilogs =
        ({} : Db).ilogs ++ [⟨({} : Db).nextImportLogId, "f.json", "STARTED", none⟩] ∧
    process_backup_gen (fun _ _ => Except.error "boom") "f.json" ({} : Db) =
      ({ startedState "f.json" ({} : Db) with
           ilogs := setLogStatus (startedState "f.json" ({} : Db)).ilogs
             ({} : Db).nextImportLogId "FAILED" (some "boom") }, some "boom") :=
  process_backup_failure_recovery (fun _ _ => Except.error "boom") "f.json" {} "boom" rfl

/-- Fixture for the C6 counterexample: a soft-deleted INCOME transaction of
category "Income" and an "Others" bucket with balance 0. -/
def dbDeletedIncome : Db :=
  { buckets := [⟨1, "Others", none, some 0⟩],
    transactions := [⟨1, some 100000, "Sal", "Income", some "INCOME", some "h", true⟩],
    nextBucketId := 2, nextTransactionId := 2 }

/-- C6 counterexample: `distribute_income` never reads `is_deleted` — lines
106-112 of `app/api/budget.py` check only existence, category and type — so
distributing the soft-deleted transaction 1 succeeds and mutates the
"Others" bucket balance from 0 to 1000.00, contradicting "for every
soft-deleted transaction the call is rejected before any mutation". -/
theorem distribute_ignores_soft_delete_counterexample :
    distribute_income 1 dbDeletedIncome =
      .ok ({ dbDeletedIncome with
               buckets := [⟨1, "Others", none, some 100000⟩],
               events := [⟨1, 1, 100000, false⟩],
               dlogs := [⟨1, 1, 100000⟩],
               nextEventId := 2 }, ⟨0, 100000⟩) ∧
    bucketBalance { dbDeletedIncome with
               buckets := [⟨1, "Others", none, some 100000⟩],
               events := [⟨1, 1, 100000, false⟩],
               dlogs := [⟨1, 1, 100000⟩],
               nextEventId := 2 } 1 ≠ bucketBalance dbDeletedIncome 1 := by
  constructor
  · rfl
  · decide

/-- C6 amended: `distribute_income` fails with `NotFound` (404) when no
transaction with the requested id exists, and with `InvalidState` (400,
see `notIncomeMsg`) when the transaction's category is not exactly
"Income" or its type is not exactly "INCOME" (case-sensitive); both
rejections happen before any mutation (nothing is committed).  The
soft-delete flag is *not* checked: a soft-deleted transaction that passes
the category/type test is distributed normally (see the counterexample). -/
theorem distribute_precondition_behavior (tid : Nat) (db : Db) :
    (db.transactions.find? (fun t => t.id == tid) = none →
      distribute_income tid db = .error ⟨404, "Transaction not found"⟩) ∧
    (∀ t, db.transactions.find? (fun x => x.id == tid) = some t →
      t.category ≠ "Income" ∨ t.transaction_type ≠ some "INCOME" →
      distribute_income tid db = .error ⟨400, notIncomeMsg⟩) := by
  constructor
  · intro h
    unfold distribute_income
    rw [h]
  · intro t hfind hbad
    unfold distribute_income
    rw [hfind]
    have hcond : (t.category != "Income" || t.transaction_type != some "INCOME") = true := by
      rcases hbad with h | h <;> simp [h]
    simp [hcond]

/-- C6 amended witness: looking up a transaction in the empty store is a
404. -/
theorem distribute_precondition_behavior_witness :
    distribute_income 1 ({} : Db) = .error ⟨404, "Transaction not found"⟩ :=
  (distribute_precondition_behavior 1 {}).1 rfl

/-- The InsufficientFunds message with *both* amounts rendered at two
decimal places — what the claim asserts the code produces. -/
def twoDecimalMsg (needed avail : Cents) : String :=
  "Insufficient funds. Needed: " ++ render2 needed ++ ", Available: " ++ render2 avail

/-- Fixture for the C5 counterexample: no buckets, and an "Income"/INCOME
transaction with a negative stored amount (-5.00). -/
def dbNegativeIncome : Db :=
  { transactions := [⟨1, some (-500), "Sal", "Income", some "INCOME", some "h", false⟩],
    nextTransactionId := 2 }

/-- C5 counterexample: with no non-"Others" bucket the Python sum
`total_needed` is the plain int 0 (or a scale-0 `Decimal`), which the
f-string renders as "0", not "0.00" — so the raised message is
"Insufficient funds. Needed: 0, Available: -5.00", which differs from the
claimed everything-two-decimals rendering `twoDecimalMsg 0 (-500)`. -/
theorem insufficient_message_not_two_decimal_counterexample :
    distribute_income 1 dbNegativeIncome =
      .error ⟨400, "Insufficient funds. Needed: 0, Available: -5.00"⟩ ∧
    "Insufficient funds. Needed: 0, Available: -5.00" ≠ twoDecimalMsg 0 (-500) := by
  constructor
  · rfl
  · decide

/-- The non-"Others" rows are unchanged by `ensureOthers` (it can only
append a bucket named "Others"). -/
theorem filter_nonOthers_ensureOthers (db : Db) :
    ((ensureOthers db).2.buckets.filter fun b => b.name != "Others") =
      (db.buckets.filter fun b => b.name != "Others") := by
  unfold ensureOthers
  cases h : db.buckets.find? (fun b => b.name == "Others") <;>
    simp [List.filter_append]

/-- `total_needed` is insensitive to the lazy "Others" creation. -/
theorem totalNeeded_ensureOthers (db : Db) :
    totalNeeded (ensureOthers db).2.buckets = totalNeeded db.buckets := by
  unfold totalNeeded
  rw [filter_nonOthers_ensureOthers]

/-- So is the rendered message. -/
theorem insufficientMsg_ensureOthers (db : Db) (a : Cents) :
    insufficientMsg (ensureOthers db).2.buckets a = insufficientMsg db.buckets a := by
  unfold insufficientMsg neededStr
  rw [filter_nonOthers_ensureOthers]

/-- C5 amended: for a transaction passing the existence and
category/type checks and carrying a stored amount `a`, `distribute_income`
is rejected with `InsufficientFunds` **iff** `a < Σ monthly_amount` over
the non-"Others" buckets (NULLs as 0); the rejection happens before the
event row or any balance mutation is committed, and its message embeds
both amounts in Python decimal string form (`insufficientMsg`): the
available amount always shows two decimals (stored scale-2 Decimal), and
the needed total shows two decimals whenever some non-"Others" bucket has
a non-NULL monthly amount, but renders as "0" otherwise. -/
theorem distribute_insufficient_iff (tid : Nat) (db : Db) (t : Transaction) (a : Cents)
    (hfind : db.transactions.find? (fun x => x.id == tid) = some t)
    (hcat : t.category = "Income") (hty : t.transaction_type = some "INCOME")
    (hamt : t.amount = some a) :
    distribute_income tid db = .error ⟨400, insufficientMsg db.buckets a⟩ ↔
      a < totalNeeded db.buckets := by
  unfold distribute_income
  rw [hfind]
  simp only [hcat, hty, hamt]
  rw [show (("Income" != "Income" || some "INCOME" != some "INCOME") = false) from rfl]
  simp only [Bool.false_eq_true, if_false]
  by_cases hlt : a < totalNeeded db.buckets
  · have : a < totalNeeded (ensureOthers db).2.buckets := by
      rw [totalNeeded_ensureOthers]; exact hlt
    simp [this, hlt, insufficientMsg_ensureOthers]
  · have : ¬ a < totalNeeded (ensureOthers db).2.buckets := by
      rw [totalNeeded_ensureOthers]; exact hlt
    simp [this, hlt]

/-- Fixture for the C5 amended witness: one budgeted bucket (Food,
monthly 1000.00), an "Others" bucket, and an income of 500.00. -/
def dbUnderfunded : Db :=
  { buckets := [⟨1, "Food", some 100000, some 0⟩, ⟨2, "Others", none, some 0⟩],
    transactions := [⟨7, some 50000, "Sal", "Income", some "INCOME", some "h", false⟩],
    nextBucketId := 3, nextTransactionId := 8 }

/-- C5 amended witness: 500.00 < 1000.00 is rejected with the rendered
message (here both amounts do show two decimals). -/
theorem distribute_insufficient_iff_witness :
    distribute_income 7 dbUnderfunded =
      .error ⟨400, insufficientMsg dbUnderfunded.buckets 50000⟩ :=
  (distribute_insufficient_iff 7 dbUnderfunded
    ⟨7, some 50000, "Sal", "Income", some "INCOME", some "h", false⟩ 50000
    (by decide) rfl rfl rfl).mpr (by decide)

/-! ## More list helpers (primary-key lookups) -/

/-- In a table with unique keys, looking a member row up by its own key
finds exactly that row. -/
theorem find?_key_of_mem {α : Type} (key : α → Nat) (l : List α)
    (hnd : (l.map key).Nodup) (x : α) (hx : x ∈ l) :
    l.find? (fun y => key y == key x) = some x := by
  induction l with
  | nil => cases hx
  | cons hd tl ih =>
    by_cases h : key hd = key x
    · have hx' : x = hd := by
        rcases List.mem_cons.mp hx with h' | hmem
        · exact h'
        · exfalso
          have hmap : key x ∈ tl.map key := List.mem_map_of_mem key hmem
          rw [← h] at hmap
          exact (List.nodup_cons.mp hnd).1 hmap
      subst hx'
      exact List.find?_cons_of_pos _ (by simp)
    · have hx' : x ∈ tl := by
        rcases List.mem_cons.mp hx with h' | hmem
        · exact absurd (congrArg key h'.symm) h
        · exact hmem
      rw [List.find?_cons_of_neg _ (by simp [h])]
      exact ih (List.nodup_cons.mp hnd).2 hx'

/-- Two member rows of a unique-key table with the same key are the same
row. -/
theorem eq_of_mem_key {α : Type} (key : α → Nat) (l : List α)
    (hnd : (l.map key).Nodup) {x y : α} (hx : x ∈ l) (hy : y ∈ l)
    (hk : key x = key y) : x = y :=
  List.inj_on_of_nodup_map hnd hx hy hk

/-- A row's key is present iff some member row carries it. -/
theorem exists_id_of_ids_mem (bs : List Bucket) (bid : Nat) :
    (∃ x, x ∈ bs ∧ (x.id == bid) = true) ↔ bid ∈ bs.map Bucket.id := by
  simp only [List.mem_map, beq_iff_eq]

/-- Appending a row with a fresh key keeps keys unique. -/
theorem nodup_ids_append_fresh (bs : List Bucket) (nb : Bucket)
    (hnd : (bs.map Bucket.id).Nodup) (hfresh : ∀ b ∈ bs, b.id < nb.id) :
    ((bs ++ [nb]).map Bucket.id).Nodup := by
  rw [List.map_append]
  rw [List.nodup_append]
  refine ⟨hnd, List.nodup_singleton _, ?_⟩
  intro a ha hb
  simp only [List.map_singleton, List.mem_singleton] at hb
  obtain ⟨b, hbmem, rfl⟩ := List.mem_map.mp ha
  exact absurd hb (Nat.ne_of_lt (hfresh b hbmem))

/-- Keys of pairwise distinct member rows with distinct names differ.
(Specialized form used for the "Others" bucket.) -/
theorem id_ne_of_name_ne (bs : List Bucket) (hnd : (bs.map Bucket.id).Nodup)
    {b b0 : Bucket} (hb : b ∈ bs) (hb0 : b0 ∈ bs) (hname : b.name ≠ b0.name) :
    b.id ≠ b0.id := by
  intro h
  exact hname (congrArg Bucket.name (eq_of_mem_key Bucket.id bs hnd hb hb0 h))

/-- A predicate-filtered table of length at most one determines its member:
any two member rows satisfying the predicate coincide. -/
theorem eq_of_filter_len_le_one {α : Type} (p : α → Bool) (l : List α)
    (hlen : (l.filter p).length ≤ 1) {x y : α} (hx : x ∈ l) (hpx : p x = true)
    (hy : y ∈ l) (hpy : p y = true) : x = y := by
  have hx' : x ∈ l.filter p := List.mem_filter.mpr ⟨hx, hpx⟩
  have hy' : y ∈ l.filter p := List.mem_filter.mpr ⟨hy, hpy⟩
  cases hfp : l.filter p with
  | nil => rw [hfp] at hx'; cases hx'
  | cons z rest =>
    cases rest with
    | nil =>
      rw [hfp] at hx' hy'
      rw [List.mem_singleton.mp hx', List.mem_singleton.mp hy']
    | cons z2 rest2 =>
      rw [hfp] at hlen
      simp at hlen

/-- The balance of a member row of a unique-key bucket table. -/
theorem balOf_of_mem (bs : List Bucket) (hnd : (bs.map Bucket.id).Nodup)
    (b : Bucket) (hb : b ∈ bs) : balOf bs b.id = b.total_amount.getD 0 := by
  unfold balOf
  rw [find?_key_of_mem Bucket.id bs hnd b hb]

/-- The balance of a member row after an id-preserving rewrite of the whole
table. -/
theorem balOf_map_of_mem (bs : List Bucket) (hnd : (bs.map Bucket.id).Nodup)
    (b : Bucket) (hb : b ∈ bs) (φ : Bucket → Bucket) (hφ : ∀ x, (φ x).id = x.id) :
    balOf (bs.map φ) b.id = (φ b).total_amount.getD 0 := by
  unfold balOf
  rw [find?_map_comm φ _ (fun x => by simp [hφ]),
    find?_key_of_mem Bucket.id bs hnd b hb]
  rfl

/-! ## Claim theorem: distribute balances (C4) -/

/-- `totalNeeded` ignores an appended "Others" bucket. -/
theorem totalNeeded_append_others (bs : List Bucket) (o : Bucket)
    (ho : o.name = "Others") :
    totalNeeded (bs ++ [o]) = totalNeeded bs := by
  unfold totalNeeded
  rw [List.filter_append]
  simp [ho]

/-- C4: after a successful `distribute_income` on a store with unique keys
and at most one "Others" bucket, every bucket not named "Others" gains
exactly its `monthly_amount` (NULL as 0), the "Others" bucket gains exactly
the remainder `a - Σ monthly_amount(non-Others)`, the allocated total plus
the remainder equals the transaction amount exactly, and the returned
payload carries that allocated total and remainder. -/
theorem distribute_success_balances (tid : Nat) (db : Db) (t : Transaction) (a : Cents)
    (hwf : DbWF db)
    (hfind : db.transactions.find? (fun x => x.id == tid) = some t)
    (hcat : t.category = "Income") (hty : t.transaction_type = some "INCOME")
    (hamt : t.amount = some a)
    (hsuff : totalNeeded db.buckets ≤ a)
    (huniq : (db.buckets.filter fun b => b.name == "Others").length ≤ 1) :
    ∃ db', distribute_income tid db =
        .ok (db', ⟨totalNeeded db.buckets, a - totalNeeded db.buckets⟩) ∧
      (∀ b ∈ db.buckets, b.name ≠ "Others" →
        bucketBalance db' b.id = bucketBalance db b.id + b.monthly_amount.getD 0) ∧
      (∀ b ∈ db.buckets, b.name = "Others" →
        bucketBalance db' b.id = bucketBalance db b.id + (a - totalNeeded db.buckets)) ∧
      totalNeeded db.buckets + (a - totalNeeded db.buckets) = a := by
  cases hens : db.buckets.find? (fun x => x.name == "Others") with
  | some b0 =>
    have hb0mem : b0 ∈ db.buckets := List.mem_of_find?_eq_some hens
    have hb0name : b0.name = "Others" := by simpa using List.find?_some hens
    unfold distribute_income ensureOthers
    rw [hfind, hens]
    simp only [hcat, hty]
    rw [show (("Income" != "Income" || some "INCOME" != some "INCOME") = false) from rfl]
    simp only [Bool.false_eq_true, if_false]
    rw [hamt]
    simp only
    have hnlt : ¬ (a < totalNeeded db.buckets) := not_lt.mpr hsuff
    rw [if_neg hnlt]
    refine ⟨_, rfl, ?_, ?_, by ring⟩
    · intro b hb hbname
      have hidne : b.id ≠ b0.id :=
        id_ne_of_name_ne db.buckets hwf.bucketIds hb hb0mem (by rw [hb0name]; exact hbname)
      show balOf _ b.id = _
      dsimp only [updBucket]
      rw [List.map_map,
        balOf_map_of_mem db.buckets hwf.bucketIds b hb _
          (fun x => by dsimp only [Function.comp]; split <;> split <;> rfl)]
      unfold bucketBalance
      rw [balOf_of_mem db.buckets hwf.bucketIds b hb]
      simp [Function.comp, hbname, hidne]
    · intro b hb hbname
      have hbb0 : b = b0 :=
        eq_of_filter_len_le_one _ db.buckets huniq hb (by simp [hbname]) hb0mem
          (by simp [hb0name])
      subst hbb0
      show balOf _ b.id = _
      dsimp only [updBucket]
      rw [List.map_map,
        balOf_map_of_mem db.buckets hwf.bucketIds b hb _
          (fun x => by dsimp only [Function.comp]; split <;> split <;> rfl)]
      unfold bucketBalance
      rw [balOf_of_mem db.buckets hwf.bucketIds b hb]
      simp [Function.comp, hbname]
  | none =>
    have ho : (⟨db.nextBucketId, "Others", none, none⟩ : Bucket).name = "Others" := rfl
    have hnd' : ((db.buckets ++ [(⟨db.nextBucketId, "Others", none, none⟩ : Bucket)]).map
        Bucket.id).Nodup :=
      nodup_ids_append_fresh db.buckets _ hwf.bucketIds (fun x hx => hwf.bucketFresh x hx)
    unfold distribute_income ensureOthers
    rw [hfind, hens]
    simp only [hcat, hty]
    rw [show (("Income" != "Income" || some "INCOME" != some "INCOME") = false) from rfl]
    simp only [Bool.false_eq_true, if_false]
    rw [hamt]
    simp only
    rw [totalNeeded_append_others db.buckets _ ho]
    have hnlt : ¬ (a < totalNeeded db.buckets) := not_lt.mpr hsuff
    rw [if_neg hnlt]
    refine ⟨_, rfl, ?_, ?_, by ring⟩
    · intro b hb hbname
      have hfresh : b.id < db.nextBucketId := hwf.bucketFresh b hb
      show balOf _ b.id = _
      dsimp only [updBucket]
      rw [List.map_map,
        balOf_map_of_mem _ hnd' b (List.mem_append_left _ hb) _
          (fun x => by dsimp only [Function.comp]; split <;> split <;> rfl)]
      unfold bucketBalance
      rw [balOf_of_mem db.buckets hwf.bucketIds b hb]
      simp [Function.comp, hbname, Nat.ne_of_lt hfresh]
    · intro b hb hbname
      exfalso
      have := List.find?_eq_none.mp hens b hb
      simp [hbname] at this

/-- Fixture for the C4 witness: the spec §8 example — Food(monthly
1000.00), Rent(monthly 5000.00), Others, and an income of 10000.00. -/
def dbSpecExample : Db :=
  { buckets := [⟨1, "Food", some 100000, some 0⟩, ⟨2, "Rent", some 500000, some 0⟩,
                ⟨3, "Others", some 0, some 0⟩],
    transactions := [⟨7, some 1000000, "Sal", "Income", some "INCOME", some "h", false⟩],
    nextBucketId := 4, nextTransactionId := 8 }

/-- C4 witness: distributing 10000.00 across the spec example. -/
theorem distribute_success_balances_witness :
    ∃ db', distribute_income 7 dbSpecExample =
        .ok (db', ⟨totalNeeded dbSpecExample.buckets, 1000000 - totalNeeded dbSpecExample.buckets⟩) ∧
      (∀ b ∈ dbSpecExample.buckets, b.name ≠ "Others" →
        bucketBalance db' b.id = bucketBalance dbSpecExample b.id + b.monthly_amount.getD 0) ∧
      (∀ b ∈ dbSpecExample.buckets, b.name = "Others" →
        bucketBalance db' b.id = bucketBalance dbSpecExample b.id +
          (1000000 - totalNeeded dbSpecExample.buckets)) ∧
      totalNeeded dbSpecExample.buckets + (1000000 - totalNeeded dbSpecExample.buckets) = 1000000 :=
  distribute_success_balances 7 dbSpecExample
    ⟨7, some 1000000, "Sal", "Income", some "INCOME", some "h", false⟩ 1000000
    (by constructor <;> decide) (by decide) rfl rfl rfl (by decide) (by decide)

/-! ## Claim theorem: revert undoes logged deltas (C7) -/

/-- One revert-loop iteration does not change the set of bucket keys. -/
theorem applyRevertLog_ids (db : Db) (l : DistributionLog) :
    (applyRevertLog db l).buckets.map Bucket.id = db.buckets.map Bucket.id := by
  unfold applyRevertLog
  cases h : db.buckets.find? (fun b => b.id == l.bucket_id) with
  | none => rfl
  | some b =>
    simp only [updBucket, List.map_map]
    exact List.map_congr_left fun x _ => by
      by_cases hx : x.id = l.bucket_id <;> simp [hx]

/-- The revert loop never touches the events table. -/
theorem foldl_applyRevertLog_events (logs : List DistributionLog) (db : Db) :
    (logs.foldl applyRevertLog db).events = db.events := by
  induction logs generalizing db with
  | nil => rfl
  | cons l rest ih =>
    rw [List.foldl_cons, ih]
    unfold applyRevertLog
    cases db.buckets.find? (fun b => b.id == l.bucket_id) <;> rfl

/-- Balance bookkeeping of the whole revert loop: a present bucket ends
with its balance decreased by the sum of the logged amounts that target
it. -/
theorem balOf_foldl_applyRevertLog (logs : List DistributionLog) (db : Db) (bid : Nat)
    (hmem : bid ∈ db.buckets.map Bucket.id) :
    balOf (logs.foldl applyRevertLog db).buckets bid =
      balOf db.buckets bid -
        ((logs.filter fun l => l.bucket_id == bid).map DistributionLog.amount).sum := by
  induction logs generalizing db with
  | nil => simp
  | cons l rest ih =>
    rw [List.foldl_cons]
    have hmem' : bid ∈ (applyRevertLog db l).buckets.map Bucket.id := by
      rw [applyRevertLog_ids]; exact hmem
    rw [ih (applyRevertLog db l) hmem']
    have hstep : balOf (applyRevertLog db l).buckets bid =
        balOf db.buckets bid - (if l.bucket_id = bid then l.amount else 0) := by
      unfold applyRevertLog
      cases hf : db.buckets.find? (fun b => b.id == l.bucket_id) with
      | none =>
        have hne : l.bucket_id ≠ bid := by
          intro heq
          subst heq
          obtain ⟨x, hx, hpx⟩ := (exists_id_of_ids_mem db.buckets l.bucket_id).mpr hmem
          have := List.find?_eq_none.mp hf x hx
          exact absurd hpx (by simpa using this)
        simp [hne]
      | some b =>
        simp only
        rw [balOf_updBucket db.buckets l.bucket_id bid
          (fun x => { x with total_amount := some (x.total_amount.getD 0 - l.amount) })
          (fun x => rfl)]
        cases hfind2 : db.buckets.find? (fun x => x.id == bid) with
        | none =>
          exfalso
          obtain ⟨x, hx, hpx⟩ := (exists_id_of_ids_mem db.buckets bid).mpr hmem
          have := List.find?_eq_none.mp hfind2 x hx
          exact absurd hpx (by simpa using this)
        | some x =>
          have hxid : x.id = bid := by
            have := List.find?_some hfind2
            simpa using this
          unfold balOf
          rw [hfind2]
          dsimp only
          by_cases hx : l.bucket_id = bid
          · rw [if_pos (by simp [hxid]; omega), if_pos hx]
            simp
          · rw [if_neg (by simp [hxid]; omega), if_neg hx]
            simp
    rw [hstep, List.filter_cons]
    by_cases hl : l.bucket_id = bid
    · rw [if_pos hl, if_pos (show (l.bucket_id == bid) = true by simp [hl])]
      simp only [List.map_cons, List.sum_cons]
      ring
    · rw [if_neg hl, if_neg (show ¬ (l.bucket_id == bid) = true by simp [hl])]
      ring

/-- C7: for every existing, not-yet-reverted `DistributionEvent`,
`revert_distribution` succeeds, subtracts from each stored bucket exactly
the sum of the amounts of the event's `DistributionLog` rows targeting
that bucket (the originally logged deltas), and sets the event's reverted
flag. -/
theorem revert_undoes_logged_deltas (eid : Nat) (db : Db) (e : DistributionEvent)
    (hwf : DbWF db)
    (hfind : db.events.find? (fun x => x.id == eid) = some e)
    (hnotrev : e.is_reverted = false) :
    ∃ db', revert_distribution eid db = .ok db' ∧
      (∀ b ∈ db.buckets,
        bucketBalance db' b.id = bucketBalance db b.id -
          (((eventLogs db eid).filter fun l => l.bucket_id == b.id).map
            DistributionLog.amount).sum) ∧
      db'.events.find? (fun x => x.id == eid) = some { e with is_reverted := true } := by
  unfold revert_distribution
  rw [hfind]
  simp only [hnotrev, Bool.false_eq_true, if_false]
  refine ⟨_, rfl, ?_, ?_⟩
  · intro b hb
    have hmem : b.id ∈ db.buckets.map Bucket.id := List.mem_map_of_mem _ hb
    have h1 := balOf_foldl_applyRevertLog (eventLogs db eid) db b.id hmem
    have hbeq : ((eventLogs db eid).filter fun l => l.bucket_id == b.id) =
        ((eventLogs db eid).filter fun l => l.bucket_id == b.id) := rfl
    exact h1
  · show (((eventLogs db eid).foldl applyRevertLog db).events.map fun e2 =>
        if e2.id == eid then { e2 with is_reverted := true } else e2).find?
          (fun x => x.id == eid) = _
    rw [find?_map_comm
      (fun e2 : DistributionEvent => if e2.id == eid then { e2 with is_reverted := true } else e2)
      (fun x : DistributionEvent => x.id == eid)
      (by intro x; by_cases hx : x.id = eid <;> simp [hx])]
    rw [foldl_applyRevertLog_events, hfind]
    have heid : e.id = eid := by
      have := List.find?_some hfind
      simpa using this
    simp [heid]

/-- Fixture for the C7 witness: one unreverted event with two logged
deltas. -/
def dbLoggedEvent : Db :=
  { buckets := [⟨1, "Food", some 100000, some 100000⟩, ⟨2, "Others", none, some 40000⟩],
    events := [⟨1, 7, 140000, false⟩],
    dlogs := [⟨1, 1, 100000⟩, ⟨1, 2, 40000⟩],
    nextBucketId := 3, nextEventId := 2 }

/-- C7 witness: reverting event 1 of the fixture. -/
theorem revert_undoes_logged_deltas_witness :
    ∃ db', revert_distribution 1 dbLoggedEvent = .ok db' ∧
      (∀ b ∈ dbLoggedEvent.buckets,
        bucketBalance db' b.id = bucketBalance dbLoggedEvent b.id -
          (((eventLogs dbLoggedEvent 1).filter fun l => l.bucket_id == b.id).map
            DistributionLog.amount).sum) ∧
      db'.events.find? (fun x => x.id == 1) =
        some (⟨1, 7, 140000, true⟩ : DistributionEvent) :=
  revert_undoes_logged_deltas 1 dbLoggedEvent ⟨1, 7, 140000, false⟩
    (by constructor <;> decide) (by decide) rfl

/-! ## Claim theorem: reconciliation update-then-reapply (C1) -/

/-- Fixture for C1: one category "c" linked to bucket 1 whose balance is
`-a`, the stored EXPENSE transaction of amount `a` (dedup key "h") whose
first application produced that balance. -/
def dbStoredExpense (a : Cents) : Db :=
  { buckets := [⟨1, "c", none, some (-a)⟩],
    categories := [⟨1, "c", some 1⟩],
    transactions := [⟨1, some a, "m", "c", some "EXPENSE", some "h", false⟩],
    nextBucketId := 2, nextCategoryId := 2, nextTransactionId := 2 }

/-- Fixture for C1: a snapshot carrying the same dedup key "h" with a new
amount `a'`. -/
def snapReprocess (a' : Cents) : DatabaseSnapshot :=
  { categories := [⟨some "c"⟩],
    transactions := [⟨some "h", some "m", some "c", some "EXPENSE", some a', none⟩] }

/-- C1: reprocessing a snapshot whose record shares the stored EXPENSE's
dedup key but carries a different amount `a'` first reverses the old
effect (adding back `a`) and then applies the new effect, leaving the
bucket at `-a'` — not `-(a + a')`.  (Concretely, 100.00 reprocessed as
150.00 yields -150.00, not -250.00; see the witness.) -/
theorem reprocess_changed_amount_balance (a a' : Cents)
    (ha : 0 < a) (ha' : 0 < a') (hne : a ≠ a') :
    bucketBalance (applySnapshot (snapReprocess a') (dbStoredExpense a)) 1 = -a' := by
  have haT : (a != 0) = true := by simpa using ne_of_gt ha
  have ha'T : (a' != 0) = true := by simpa using ne_of_gt ha'
  have hc : "c".isEmpty = false := rfl
  have hh : "h".isEmpty = false := rfl
  simp [applySnapshot, process_backup, process_backup_gen, startedState, runMerge,
    processCategories, processCategoryItem, processTransactions, processTransactionItem,
    dbStoredExpense, snapReprocess, txnChanged, txnOverwrite, revertOldEffect,
    revGuard, applyGuard, applyNewEffect, softDeletePass, softDeleteStep,
    isSoftDeleteTarget, snapHashes,
    truthyAmt, truthyStr, updBucket, bucketBalance, balOf, setLogStatus, haT, ha'T,
    hc, hh]

/-- C1 witness: a stored EXPENSE of 100.00 (bucket at -100.00) reprocessed
with amount 150.00 leaves the bucket at -150.00. -/
theorem reprocess_changed_amount_balance_witness :
    bucketBalance (applySnapshot (snapReprocess 15000) (dbStoredExpense 10000)) 1 = -15000 :=
  reprocess_changed_amount_balance 10000 15000 (by decide) (by decide) (by decide)

/-! ## Claim theorem: soft-delete pass (C3) -/

/-- The signed bucket delta the revert logic (`revertOldEffect`) applies to
bucket `bid` for a transaction's (amount, category, type), read off the
category table `cs`: `+amount` for EXPENSE and `-amount` for INCOME on the
linked bucket, 0 whenever a truthiness guard fails, the category is
unresolved, or it has no bucket link. -/
def revDelta (cs : List Category) (t : Transaction) (bid : Nat) : Cents :=
  if revGuard t.amount t.category t.transaction_type then
    match cs.find? (fun c => c.name == t.category) with
    | none => 0
    | some cat =>
      match cat.bucket_id with
      | none => 0
      | some bid' =>
        if bid' = bid then
          (if t.transaction_type == some "EXPENSE" then t.amount.getD 0 else -(t.amount.getD 0))
        else 0
  else 0

/-- `revertOldEffect` only ever touches bucket balances. -/
theorem revertOldEffect_categories (db : Db) (am : Option Cents) (catName : String)
    (ty : Option String) : (revertOldEffect db am catName ty).categories = db.categories := by
  unfold revertOldEffect
  by_cases hg : revGuard am catName ty = true
  · rw [if_pos hg]
    cases hc : db.categories.find? (fun c => c.name == catName) with
    | none => rfl
    | some cat =>
      obtain ⟨cid, cname, cbid⟩ := cat
      cases cbid with
      | none => rfl
      | some bid' => rfl
  · rw [if_neg hg]

/-- `revertOldEffect` leaves the transaction table alone. -/
theorem revertOldEffect_transactions (db : Db) (am : Option Cents) (catName : String)
    (ty : Option String) : (revertOldEffect db am catName ty).transactions = db.transactions := by
  unfold revertOldEffect
  by_cases hg : revGuard am catName ty = true
  · rw [if_pos hg]
    cases hc : db.categories.find? (fun c => c.name == catName) with
    | none => rfl
    | some cat =>
      obtain ⟨cid, cname, cbid⟩ := cat
      cases cbid with
      | none => rfl
      | some bid' => rfl
  · rw [if_neg hg]

/-- `revertOldEffect` appends no row logs. -/
theorem revertOldEffect_rlogs (db : Db) (am : Option Cents) (catName : String)
    (ty : Option String) : (revertOldEffect db am catName ty).rlogs = db.rlogs := by
  unfold revertOldEffect
  by_cases hg : revGuard am catName ty = true
  · rw [if_pos hg]
    cases hc : db.categories.find? (fun c => c.name == catName) with
    | none => rfl
    | some cat =>
      obtain ⟨cid, cname, cbid⟩ := cat
      cases cbid with
      | none => rfl
      | some bid' => rfl
  · rw [if_neg hg]

/-- `revertOldEffect` preserves the set of bucket keys. -/
theorem revertOldEffect_bucket_ids (db : Db) (am : Option Cents) (catName : String)
    (ty : Option String) :
    (revertOldEffect db am catName ty).buckets.map Bucket.id = db.buckets.map Bucket.id := by
  unfold revertOldEffect
  by_cases hg : revGuard am catName ty = true
  · rw [if_pos hg]
    cases hc : db.categories.find? (fun c => c.name == catName) with
    | none => rfl
    | some cat =>
      obtain ⟨cid, cname, cbid⟩ := cat
      cases cbid with
      | none => rfl
      | some bid' =>
        simp only [updBucket, List.map_map]
        exact List.map_congr_left fun x _ => by
          by_cases hx : x.id = bid' <;> simp [hx]
  · rw [if_neg hg]

/-- Balance bookkeeping of one revert: a present bucket moves by exactly
`revDelta`. -/
theorem balOf_revertOldEffect (db : Db) (t : Transaction) (bid : Nat)
    (hmem : bid ∈ db.buckets.map Bucket.id) :
    balOf (revertOldEffect db t.amount t.category t.transaction_type).buckets bid =
      balOf db.buckets bid + revDelta db.categories t bid := by
  unfold revertOldEffect revDelta
  by_cases hg : revGuard t.amount t.category t.transaction_type = true
  · rw [if_pos hg, if_pos hg]
    cases hc : db.categories.find? (fun c => c.name == t.category) with
    | none => simp
    | some cat =>
      obtain ⟨cid, cname, cbid⟩ := cat
      cases cbid with
      | none => simp
      | some bid' =>
        simp only
        rw [balOf_updBucket db.buckets bid' bid
          (fun b => { b with total_amount := some (b.total_amount.getD 0 +
            (if t.transaction_type == some "EXPENSE" then t.amount.getD 0
             else -(t.amount.getD 0))) })
          (fun b => rfl)]
        cases hfind : db.buckets.find? (fun b => b.id == bid) with
        | none =>
          exfalso
          obtain ⟨x, hx, hpx⟩ := (exists_id_of_ids_mem db.buckets bid).mpr hmem
          have := List.find?_eq_none.mp hfind x hx
          exact absurd hpx (by simpa using this)
        | some x =>
          have hxid : x.id = bid := by simpa using List.find?_some hfind
          unfold balOf
          rw [hfind]
          dsimp only
          by_cases hbb : bid' = bid
          · rw [if_pos (by simp [hxid]; omega), if_pos hbb]
            simp
          · rw [if_neg (by simp [hxid]; omega), if_neg hbb]
            simp
  · rw [if_neg hg, if_neg hg]
    simp

/-- Marking a transaction row deleted. -/
def markDeleted (u : Transaction) : Transaction := { u with is_deleted := true }

/-- The per-row rewrite a soft-delete iteration for `t` performs on the
transaction table. -/
def markStep (hs : List String) (t : Transaction) (u : Transaction) : Transaction :=
  if isSoftDeleteTarget hs t && u.id == t.id then markDeleted u else u

/-- One soft-delete iteration never touches the category table. -/
theorem softDeleteStep_categories (hs : List String) (lid : Nat) (db : Db)
    (t : Transaction) : (softDeleteStep hs lid db t).categories = db.categories := by
  unfold softDeleteStep
  by_cases h : isSoftDeleteTarget hs t = true
  · rw [if_pos h]
    exact revertOldEffect_categories _ _ _ _
  · rw [if_neg h]

/-- One soft-delete iteration preserves the set of bucket keys. -/
theorem softDeleteStep_bucket_ids (hs : List String) (lid : Nat) (db : Db)
    (t : Transaction) :
    (softDeleteStep hs lid db t).buckets.map Bucket.id = db.buckets.map Bucket.id := by
  unfold softDeleteStep
  by_cases h : isSoftDeleteTarget hs t = true
  · rw [if_pos h]
    exact revertOldEffect_bucket_ids _ _ _ _
  · rw [if_neg h]

/-- Balance bookkeeping of one soft-delete iteration. -/
theorem balOf_softDeleteStep (hs : List String) (lid : Nat) (db : Db) (t : Transaction)
    (bid : Nat) (hmem : bid ∈ db.buckets.map Bucket.id) :
    balOf (softDeleteStep hs lid db t).buckets bid =
      balOf db.buckets bid +
        (if isSoftDeleteTarget hs t then revDelta db.categories t bid else 0) := by
  unfold softDeleteStep
  by_cases h : isSoftDeleteTarget hs t = true
  · rw [if_pos h, if_pos h]
    exact balOf_revertOldEffect _ t bid hmem
  · rw [if_neg h, if_neg h]
    simp

/-- The row logs appended by the soft-delete loop: one DELETED row per
picked-up transaction, in loop order. -/
theorem foldl_softDeleteStep_rlogs (hs : List String) (lid : Nat)
    (L : List Transaction) (db : Db) :
    (L.foldl (softDeleteStep hs lid) db).rlogs =
      db.rlogs ++ ((L.filter fun t => isSoftDeleteTarget hs t).map
        fun t => txnRowLog lid "DELETED" t.id) := by
  induction L generalizing db with
  | nil => simp
  | cons t L ih =>
    rw [List.foldl_cons, ih, List.filter_cons]
    by_cases h : isSoftDeleteTarget hs t = true
    · rw [if_pos h]
      have hstep : (softDeleteStep hs lid db t).rlogs =
          db.rlogs ++ [txnRowLog lid "DELETED" t.id] := by
        unfold softDeleteStep
        rw [if_pos h]
        dsimp only
        rw [revertOldEffect_rlogs]
      rw [hstep]
      simp
    · rw [if_neg h]
      have hstep : (softDeleteStep hs lid db t).rlogs = db.rlogs := by
        unfold softDeleteStep
        rw [if_neg h]
      rw [hstep]

/-- Balance bookkeeping of the whole soft-delete loop. -/
theorem foldl_softDeleteStep_balOf (hs : List String) (lid : Nat)
    (L : List Transaction) (db : Db) (bid : Nat)
    (hmem : bid ∈ db.buckets.map Bucket.id) :
    balOf (L.foldl (softDeleteStep hs lid) db).buckets bid =
      balOf db.buckets bid +
        ((L.filter fun t => isSoftDeleteTarget hs t).map
          (fun t => revDelta db.categories t bid)).sum := by
  induction L generalizing db with
  | nil => simp
  | cons t L ih =>
    rw [List.foldl_cons]
    have hmem' : bid ∈ (softDeleteStep hs lid db t).buckets.map Bucket.id := by
      rw [softDeleteStep_bucket_ids]; exact hmem
    rw [ih _ hmem', softDeleteStep_categories, balOf_softDeleteStep hs lid db t bid hmem,
      List.filter_cons]
    by_cases h : isSoftDeleteTarget hs t = true
    · rw [if_pos h, if_pos h]
      simp only [List.map_cons, List.sum_cons]
      ring
    · rw [if_neg h, if_neg h]
      ring

/-- The transaction table evolves through the loop purely by the per-row
marking rewrites. -/
theorem foldl_softDeleteStep_transactions (hs : List String) (lid : Nat)
    (L : List Transaction) (db : Db) :
    (L.foldl (softDeleteStep hs lid) db).transactions =
      L.foldl (fun txs t => txs.map (markStep hs t)) db.transactions := by
  induction L generalizing db with
  | nil => rfl
  | cons t L ih =>
    rw [List.foldl_cons, List.foldl_cons, ih]
    congr 1
    unfold softDeleteStep
    by_cases h : isSoftDeleteTarget hs t = true
    · rw [if_pos h]
      dsimp only
      rw [revertOldEffect_transactions]
      dsimp only
      exact List.map_congr_left fun u _ => by simp [markStep, h, markDeleted]
    · rw [if_neg h]
      have : ∀ u ∈ db.transactions, markStep hs t u = u := fun u _ => by
        simp [markStep, h]
      rw [List.map_congr_left this]
      simp

/-- A fold of per-row table rewrites acts pointwise. -/
theorem foldl_map_comm (L : List Transaction)
    (f : Transaction → Transaction → Transaction) (xs : List Transaction) :
    L.foldl (fun acc t => acc.map (f t)) xs =
      xs.map (fun u => L.foldl (fun v t => f t v) u) := by
  induction L generalizing xs with
  | nil => simp
  | cons t L ih =>
    rw [List.foldl_cons, ih, List.map_map]
    exact List.map_congr_left fun u _ => by simp [Function.comp, List.foldl_cons]

/-- A row whose key no loop element carries is never rewritten. -/
theorem foldl_markStep_not_mem (hs : List String) (L : List Transaction)
    (u : Transaction) (h : ∀ t ∈ L, t.id ≠ u.id) :
    L.foldl (fun v t => markStep hs t v) u = u := by
  induction L with
  | nil => rfl
  | cons t L ih =>
    rw [List.foldl_cons]
    have hne : markStep hs t u = u := by
      have : (u.id == t.id) = false := by
        simpa using fun hh => h t (List.mem_cons_self t L) hh.symm
      simp [markStep, this]
    rw [hne]
    exact ih fun t' ht' => h t' (List.mem_cons_of_mem _ ht')

/-- A loop member's row ends marked exactly when it is a soft-delete
target. -/
theorem foldl_markStep_mem (hs : List String) (L : List Transaction)
    (u : Transaction) (hnd : (L.map Transaction.id).Nodup) (hu : u ∈ L) :
    L.foldl (fun v t => markStep hs t v) u =
      if isSoftDeleteTarget hs u then markDeleted u else u := by
  induction L with
  | nil => cases hu
  | cons t L ih =>
    rw [List.foldl_cons]
    by_cases hid : t.id = u.id
    · have hut : u = t := by
        rcases List.mem_cons.mp hu with h' | hmem
        · exact h'
        · exfalso
          have : u.id ∈ L.map Transaction.id := List.mem_map_of_mem _ hmem
          rw [← hid] at this
          exact (List.nodup_cons.mp hnd).1 this
      subst hut
      have hrest : ∀ t' ∈ L, t'.id ≠ u.id := by
        intro t' ht' heq
        have : u.id ∈ L.map Transaction.id := heq ▸ List.mem_map_of_mem _ ht'
        exact (List.nodup_cons.mp hnd).1 this
      by_cases htgt : isSoftDeleteTarget hs u = true
      · rw [show markStep hs u u = markDeleted u by simp [markStep, htgt]]
        rw [foldl_markStep_not_mem hs L (markDeleted u) (fun t' ht' => hrest t' ht')]
        rw [if_pos htgt]
      · rw [show markStep hs u u = u by simp [markStep, htgt]]
        rw [foldl_markStep_not_mem hs L u hrest]
        rw [if_neg htgt]
    · have hmem : u ∈ L := by
        rcases List.mem_cons.mp hu with h' | h'
        · exact absurd (congrArg Transaction.id h'.symm) hid
        · exact h'
      have hstep : markStep hs t u = u := by
        have : (u.id == t.id) = false := by
          simpa using fun hh => hid hh.symm
        simp [markStep, this]
      rw [hstep]
      exact ih (List.nodup_cons.mp hnd).2 hmem

/-- The transaction table after the soft-delete pass: exactly the
non-deleted rows whose truthy hash is absent from the key set get marked,
everything else is untouched. -/
theorem softDeletePass_transactions (hs : List String) (lid : Nat) (db : Db)
    (hnd : (db.transactions.map Transaction.id).Nodup) :
    (softDeletePass hs lid db).transactions =
      db.transactions.map (fun t =>
        if !t.is_deleted && isSoftDeleteTarget hs t then markDeleted t else t) := by
  unfold softDeletePass
  rw [foldl_softDeleteStep_transactions, foldl_map_comm]
  refine List.map_congr_left fun u hu => ?_
  by_cases hdel : u.is_deleted = true
  · have hne : ∀ t ∈ db.transactions.filter (fun t => !t.is_deleted), t.id ≠ u.id := by
      intro t ht heq
      have htmem := List.mem_filter.mp ht
      have : t = u := eq_of_mem_key Transaction.id db.transactions hnd htmem.1 hu heq
      rw [this] at htmem
      simp [hdel] at htmem
    rw [foldl_markStep_not_mem _ _ _ hne]
    simp [hdel]
  · have huL : u ∈ db.transactions.filter (fun t => !t.is_deleted) :=
      List.mem_filter.mpr ⟨hu, by simp [hdel]⟩
    have hndL : ((db.transactions.filter (fun t => !t.is_deleted)).map
        Transaction.id).Nodup :=
      ((List.filter_sublist _).map _).nodup hnd
    rw [foldl_markStep_mem _ _ _ hndL huL]
    simp [hdel]

/-- C3: after the transaction merge of a reconciliation run, the
soft-delete pass over the resulting store (here: any well-formed store)
with the snapshot's truthy dedup keys `snapHashes items`
* marks soft-deleted exactly the non-deleted stored transactions whose
  (non-NULL, non-empty) hash is absent from the key set, leaving every
  other row untouched,
* emits exactly one `ImportRowLog` with action DELETED per such
  transaction, and nothing else, and
* moves every stored bucket's balance by the sum of the reversal deltas of
  those transactions: `+amount` for EXPENSE and `-amount` for INCOME when
  the type is one of the two and the (truthy) category name resolves to a
  bucket-linked category, 0 otherwise (`revDelta`). -/
theorem soft_delete_pass_spec (items : List TransactionEntity) (lid : Nat) (db : Db)
    (hwf : DbWF db) :
    (softDeletePass (snapHashes items) lid db).transactions =
      db.transactions.map (fun t =>
        if !t.is_deleted && isSoftDeleteTarget (snapHashes items) t then markDeleted t
        else t) ∧
    (softDeletePass (snapHashes items) lid db).rlogs =
      db.rlogs ++
        ((db.transactions.filter fun t =>
            !t.is_deleted && isSoftDeleteTarget (snapHashes items)  t).map
          fun t => txnRowLog lid "DELETED" t.id) ∧
    ∀ bid ∈ db.buckets.map Bucket.id,
      balOf (softDeletePass (snapHashes items) lid db).buckets bid =
        balOf db.buckets bid +
          ((db.transactions.filter fun t =>
              !t.is_deleted && isSoftDeleteTarget (snapHashes items) t).map
            (fun t => revDelta db.categories t bid)).sum := by
  have hfilter :
      ((db.transactions.filter fun t => !t.is_deleted).filter
        fun t => isSoftDeleteTarget (snapHashes items) t) =
      (db.transactions.filter fun t =>
        !t.is_deleted && isSoftDeleteTarget (snapHashes items) t) := by
    rw [List.filter_filter]
    exact List.filter_congr fun a _ => by rw [Bool.and_comm]
  refine ⟨?_, ?_, ?_⟩
  · exact softDeletePass_transactions _ _ _ hwf.txnIds
  · unfold softDeletePass
    rw [foldl_softDeleteStep_rlogs, hfilter]
  · intro bid hbid
    unfold softDeletePass
    rw [foldl_softDeleteStep_balOf _ _ _ _ _ hbid, hfilter]

/-- Fixture for the C3 witness: the stored EXPENSE of 100.00 against
category "c"/bucket 1 (balance -100.00). -/
def dbBeforeDelete : Db :=
  { buckets := [⟨1, "c", none, some (-10000)⟩],
    categories := [⟨1, "c", some 1⟩],
    transactions := [⟨1, some 10000, "m", "c", some "EXPENSE", some "h", false⟩],
    nextBucketId := 2, nextCategoryId := 2, nextTransactionId := 2 }

/-- C3 witness: a snapshot with no transaction records soft-deletes the
stored EXPENSE, logs one DELETED row, and restores the bucket to 0. -/
theorem soft_delete_pass_spec_witness :
    (softDeletePass (snapHashes []) 1 dbBeforeDelete).transactions =
      dbBeforeDelete.transactions.map (fun t =>
        if !t.is_deleted && isSoftDeleteTarget (snapHashes []) t then markDeleted t
        else t) ∧
    (softDeletePass (snapHashes []) 1 dbBeforeDelete).rlogs =
      dbBeforeDelete.rlogs ++
        ((dbBeforeDelete.transactions.filter fun t =>
            !t.is_deleted && isSoftDeleteTarget (snapHashes []) t).map
          fun t => txnRowLog 1 "DELETED" t.id) ∧
    ∀ bid ∈ dbBeforeDelete.buckets.map Bucket.id,
      balOf (softDeletePass (snapHashes []) 1 dbBeforeDelete).buckets bid =
        balOf dbBeforeDelete.buckets bid +
          ((dbBeforeDelete.transactions.filter fun t =>
              !t.is_deleted && isSoftDeleteTarget (snapHashes []) t).map
            (fun t => revDelta dbBeforeDelete.categories t bid)).sum :=
  soft_delete_pass_spec [] 1 dbBeforeDelete (by constructor <;> decide)

/-! ## Claim C2: reprocessing an identical snapshot

Helper notions: field agreement between a stored row and a snapshot
record, snapshot well-formedness, explicit forms of the apply/revert
logic, and stability of the category table. -/

/-- A stored row carries every field the snapshot record provides (with
the record's string amount read at its numeric value). -/
def agreesWith (t : Transaction) (r : TransactionEntity) : Prop :=
  (∀ m, r.merchant_name = some m → t.merchant_name = m) ∧
  (∀ c, r.category = some c → t.category = c) ∧
  (∀ ty, r.transaction_type = some ty → t.transaction_type = some ty) ∧
  (∀ a, r.amount = some a → t.amount = some a) ∧
  (∀ b, r.is_deleted = some b → t.is_deleted = b)

/-- Snapshot well-formedness for the reprocessing theorem: transaction
records carry a truthy, pairwise-distinct dedup key plus the NOT-NULL
columns (`merchant_name`, `category`) and a `transaction_type`.  (Records
missing `category` or `transaction_type` can make even the *second* pass
move balances: the revert runs on the stored values while the reapply
reads only the record's fields — see the counterexample.) -/
structure SnapWF (snap : DatabaseSnapshot) : Prop where
  hashes : ∀ r ∈ snap.transactions, ∃ h, r.transaction_hash = some h ∧ h.isEmpty = false
  hashesNodup : (snap.transactions.filterMap TransactionEntity.transaction_hash).Nodup
  merchants : ∀ r ∈ snap.transactions, r.merchant_name.isSome = true
  cats : ∀ r ∈ snap.transactions, r.category.isSome = true
  types : ∀ r ∈ snap.transactions, r.transaction_type.isSome = true

/-- When the stored row agrees with the record, the merge's change
detection fires exactly on a provided amount (a stored `Decimal` never
equals a snapshot `str`). -/
theorem txnChanged_of_agreesWith (t : Transaction) (r : TransactionEntity)
    (hag : agreesWith t r) : txnChanged t r = r.amount.isSome := by
  obtain ⟨hm, hc, hty, _, hd⟩ := hag
  unfold txnChanged
  have h1 : (match r.merchant_name with
      | some m => t.merchant_name != m | none => false) = false := by
    cases hm2 : r.merchant_name with
    | none => rfl
    | some m => simp [hm m hm2]
  have h2 : (match r.category with
      | some c => t.category != c | none => false) = false := by
    cases hc2 : r.category with
    | none => rfl
    | some c => simp [hc c hc2]
  have h3 : (match r.transaction_type with
      | some ty => t.transaction_type != some ty | none => false) = false := by
    cases hty2 : r.transaction_type with
    | none => rfl
    | some ty => simp [hty ty hty2]
  have h5 : (match r.is_deleted with
      | some b => t.is_deleted != b | none => false) = false := by
    cases hd2 : r.is_deleted with
    | none => rfl
    | some b => simp [hd b hd2]
  rw [h1, h2, h3, h5]
  simp

/-- When the stored row agrees with the record, the field overwrite is the
identity. -/
theorem txnOverwrite_of_agreesWith (t : Transaction) (r : TransactionEntity)
    (hag : agreesWith t r) : txnOverwrite t r = t := by
  obtain ⟨hm, hc, hty, ha, hd⟩ := hag
  unfold txnOverwrite
  have e1 : r.merchant_name.getD t.merchant_name = t.merchant_name := by
    cases h : r.merchant_name with
    | none => rfl
    | some m => simpa using (hm m h).symm
  have e2 : r.category.getD t.category = t.category := by
    cases h : r.category with
    | none => rfl
    | some c => simpa using (hc c h).symm
  have e3 : (match r.transaction_type with
      | some ty => some ty | none => t.transaction_type) = t.transaction_type := by
    cases h : r.transaction_type with
    | none => rfl
    | some ty => exact (hty ty h).symm
  have e4 : (match r.amount with
      | some a => some a | none => t.amount) = t.amount := by
    cases h : r.amount with
    | none => rfl
    | some a => exact (ha a h).symm
  have e5 : r.is_deleted.getD t.is_deleted = t.is_deleted := by
    cases h : r.is_deleted with
    | none => rfl
    | some b => simpa using (hd b h).symm
  rw [e1, e2, e3, e4, e5]

/-- The apply guard computed on a record is the revert guard computed on
the record's fields. -/
theorem applyGuard_eq_revGuard (r : TransactionEntity) (c : String)
    (hc : r.category = some c) :
    applyGuard r = revGuard r.amount c r.transaction_type := by
  unfold applyGuard revGuard truthyStr
  rw [hc]

/-- `applyNewEffect` with a false guard is a no-op. -/
theorem applyNewEffect_guard_false (db : Db) (r : TransactionEntity)
    (h : applyGuard r = false) : applyNewEffect db r = db := by
  unfold applyNewEffect
  rw [if_neg (by simp [h])]

/-- `applyNewEffect` with an unresolved category is a silent no-op. -/
theorem applyNewEffect_cat_none (db : Db) (r : TransactionEntity)
    (hg : applyGuard r = true)
    (hc : db.categories.find? (fun c => c.name == r.category.getD "") = none) :
    applyNewEffect db r = db := by
  unfold applyNewEffect
  rw [if_pos hg, hc]

/-- Add a signed delta to a bucket's running balance. -/
def addToTotal (d : Cents) (x : Bucket) : Bucket :=
  { x with total_amount := some (x.total_amount.getD 0 + d) }

/-- `applyNewEffect` on a bucket-linked category: no lazy creation, just
the signed delta on the linked bucket. -/
theorem applyNewEffect_linked (db : Db) (r : TransactionEntity) (cat : Category)
    (b : Nat) (hg : applyGuard r = true)
    (hc : db.categories.find? (fun c => c.name == r.category.getD "") = some cat)
    (hb : cat.bucket_id = some b) :
    applyNewEffect db r =
      { db with buckets := (updBucket b
          (addToTotal (if r.transaction_type == some "EXPENSE" then -(r.amount.getD 0)
            else r.amount.getD 0)) db.buckets) } := by
  unfold applyNewEffect
  rw [if_pos hg, hc]
  dsimp only
  rw [hb]
  rfl

/-- `revertOldEffect` with a false guard is a no-op. -/
theorem revertOldEffect_guard_false (db : Db) (am : Option Cents) (cn : String)
    (ty : Option String) (h : revGuard am cn ty = false) :
    revertOldEffect db am cn ty = db := by
  unfold revertOldEffect
  rw [if_neg (by simp [h])]

/-- `revertOldEffect` with an unresolved category is a silent no-op. -/
theorem revertOldEffect_cat_none (db : Db) (am : Option Cents) (cn : String)
    (ty : Option String) (hg : revGuard am cn ty = true)
    (hc : db.categories.find? (fun c => c.name == cn) = none) :
    revertOldEffect db am cn ty = db := by
  unfold revertOldEffect
  rw [if_pos hg, hc]

/-- `revertOldEffect` on a bucket-linked category: the negated delta on
the linked bucket. -/
theorem revertOldEffect_linked (db : Db) (am : Option Cents) (cn : String)
    (ty : Option String) (cat : Category) (b : Nat) (hg : revGuard am cn ty = true)
    (hc : db.categories.find? (fun c => c.name == cn) = some cat)
    (hb : cat.bucket_id = some b) :
    revertOldEffect db am cn ty =
      { db with buckets := (updBucket b
          (addToTotal (if ty == some "EXPENSE" then am.getD 0 else -(am.getD 0)))
          db.buckets) } := by
  unfold revertOldEffect
  rw [if_pos hg, hc]
  dsimp only
  rw [hb]
  rfl

/-- Two opposite deltas on the same bucket cancel on every balance. -/
theorem balOf_updBucket_add_cancel (bs : List Bucket) (b : Nat) (d₁ d₂ : Cents)
    (hd : d₁ + d₂ = 0) (bid : Nat) :
    balOf (updBucket b (addToTotal d₂) (updBucket b (addToTotal d₁) bs)) bid =
      balOf bs bid := by
  rw [balOf_updBucket _ b bid (addToTotal d₂) (fun x => rfl)]
  unfold updBucket
  rw [find?_map_comm (fun x : Bucket => if x.id == b then addToTotal d₁ x else x)
      (fun x : Bucket => x.id == bid)
      (by intro x; by_cases hx : x.id = b <;> simp [hx, addToTotal])]
  cases hf : bs.find? (fun x => x.id == bid) with
  | none =>
    unfold balOf
    rw [hf]
    rfl
  | some x =>
    unfold balOf
    rw [hf]
    simp only [Option.map_some']
    by_cases hx : x.id = b
    · simp only [addToTotal, hx, beq_self_eq_true, if_true]
      simp only [Option.getD_some]
      rw [add_assoc, hd, add_zero]
    · simp [addToTotal, hx]

/-- Double opposite updates also leave the bucket key set alone. -/
theorem updBucket_ids (b : Nat) (f : Bucket → Bucket) (hf : ∀ x, (f x).id = x.id)
    (bs : List Bucket) : (updBucket b f bs).map Bucket.id = bs.map Bucket.id := by
  unfold updBucket
  rw [List.map_map]
  exact List.map_congr_left fun x _ => by
    by_cases hx : x.id = b <;> simp [hx, hf]

/-- Evolution order on category tables: ids, names and listing order are
fixed; a bucket link, once set, keeps its value. -/
def catStable (cs cs' : List Category) : Prop :=
  List.Forall₂ (fun c c' => c'.id = c.id ∧ c'.name = c.name ∧
    ∀ b, c.bucket_id = some b → c'.bucket_id = some b) cs cs'

theorem catStable_refl (cs : List Category) : catStable cs cs :=
  List.forall₂_same.mpr fun _ _ => ⟨rfl, rfl, fun _ h => h⟩

theorem catStable_trans {a b c : List Category} (h1 : catStable a b)
    (h2 : catStable b c) : catStable a c := by
  induction h1 generalizing c with
  | nil => cases h2; exact List.Forall₂.nil
  | cons hab h1' ih =>
    cases h2 with
    | cons hbc h2' =>
      exact List.Forall₂.cons
        ⟨hbc.1.trans hab.1, hbc.2.1.trans hab.2.1,
         fun b hb => hbc.2.2 b (hab.2.2 b hb)⟩ (ih h2')

/-- Name lookups transport along `catStable`, in both directions. -/
theorem catStable_find? {cs cs' : List Category} (h : catStable cs cs') (nm : String) :
    (cs.find? (fun c => c.name == nm) = none →
      cs'.find? (fun c => c.name == nm) = none) ∧
    (∀ c, cs.find? (fun c => c.name == nm) = some c →
      ∃ c', cs'.find? (fun c2 => c2.name == nm) = some c' ∧ c'.id = c.id ∧
        c'.name = c.name ∧ ∀ b, c.bucket_id = some b → c'.bucket_id = some b) := by
  induction h with
  | nil => exact ⟨fun _ => rfl, fun c hc => by cases hc⟩
  | cons hcc h' ih =>
    rename_i x y l1 l2
    by_cases hx : x.name = nm
    · have hy : y.name = nm := hcc.2.1.trans hx
      refine ⟨?_, ?_⟩
      · intro hnone
        rw [List.find?_cons_of_pos _ (by simp [hx])] at hnone
        cases hnone
      · intro c hc
        rw [List.find?_cons_of_pos _ (by simp [hx])] at hc
        cases hc
        exact ⟨y, List.find?_cons_of_pos _ (by simp [hy]), hcc.1, hcc.2.1, hcc.2.2⟩
    · have hy : ¬ y.name = nm := fun hh => hx (hcc.2.1 ▸ hh)
      refine ⟨?_, ?_⟩
      · intro hnone
        rw [List.find?_cons_of_neg _ (by simp [hx])] at hnone
        rw [List.find?_cons_of_neg _ (by simp [hy])]
        exact ih.1 hnone
      · intro c hc
        rw [List.find?_cons_of_neg _ (by simp [hx])] at hc
        obtain ⟨c', hc', he⟩ := ih.2 c hc
        exact ⟨c', by rw [List.find?_cons_of_neg _ (by simp [hy])]; exact hc', he⟩

/-- Unique keys survive appending a row with a fresh key (generic). -/
theorem nodup_keys_append_fresh {α : Type} (key : α → Nat) (l : List α) (x : α)
    (hnd : (l.map key).Nodup) (hfresh : ∀ y ∈ l, key y < key x) :
    ((l ++ [x]).map key).Nodup := by
  rw [List.map_append, List.nodup_append]
  refine ⟨hnd, List.nodup_singleton _, ?_⟩
  intro a ha hb
  simp only [List.map_singleton, List.mem_singleton] at hb
  obtain ⟨y, hy, rfl⟩ := List.mem_map.mp ha
  exact absurd hb (Nat.ne_of_lt (hfresh y hy))

/-- The hash index survives a hash-preserving rewrite of the table. -/
theorem filterMap_hash_map (txs : List Transaction) (φ : Transaction → Transaction)
    (hφ : ∀ u, (φ u).transaction_hash = u.transaction_hash) :
    (txs.map φ).filterMap Transaction.transaction_hash =
      txs.filterMap Transaction.transaction_hash := by
  rw [List.filterMap_map]
  exact List.filterMap_congr fun u _ => by simp [Function.comp, hφ]

/-- The hash index grows by exactly the inserted row's fresh hash. -/
theorem hashNodup_append (txs : List Transaction) (t : Transaction) (h : String)
    (hh : t.transaction_hash = some h)
    (hnone : txs.find? (fun u => u.transaction_hash == some h) = none)
    (hnd : (txs.filterMap Transaction.transaction_hash).Nodup) :
    ((txs ++ [t]).filterMap Transaction.transaction_hash).Nodup := by
  rw [List.filterMap_append]
  rw [List.nodup_append]
  refine ⟨hnd, by simp [hh], ?_⟩
  intro a ha hb
  simp only [List.filterMap_cons, hh, List.filterMap_nil] at hb
  have hb' : a = h := by simpa using hb
  subst hb'
  obtain ⟨u, hu, hu2⟩ := List.mem_filterMap.mp ha
  have := List.find?_eq_none.mp hnone u hu
  simp [hu2] at this

/-! ### Well-formedness is preserved by every reconciliation step -/

/-- Keys are unchanged by a key-preserving rewrite (generic). -/
theorem keys_map_pres {α : Type} (key : α → Nat) (l : List α) (φ : α → α)
    (hφ : ∀ x, key (φ x) = key x) : (l.map φ).map key = l.map key := by
  rw [List.map_map]
  exact List.map_congr_left fun x _ => hφ x

/-- Freshness bounds transport along key-set equality (generic). -/
theorem key_lt_of_keys_eq {α : Type} (key : α → Nat) {l l' : List α}
    (h : l'.map key = l.map key) (n : Nat) (hf : ∀ x ∈ l, key x < n) :
    ∀ x ∈ l', key x < n := by
  intro x hx
  have : key x ∈ l.map key := h ▸ List.mem_map_of_mem key hx
  obtain ⟨y, hy, hyk⟩ := List.mem_map.mp this
  exact hyk ▸ hf y hy

/-- `revertOldEffect` on a category without a bucket link is a no-op. -/
theorem revertOldEffect_unlinked (db : Db) (am : Option Cents) (cn : String)
    (ty : Option String) (cat : Category) (hg : revGuard am cn ty = true)
    (hc : db.categories.find? (fun c => c.name == cn) = some cat)
    (hb : cat.bucket_id = none) : revertOldEffect db am cn ty = db := by
  unfold revertOldEffect
  rw [if_pos hg, hc]
  dsimp only
  rw [hb]

/-- `applyNewEffect` on a resolvable category without a bucket link:
lazily create the bucket, link it, then apply the delta to it. -/
theorem applyNewEffect_unlinked (db : Db) (r : TransactionEntity) (cat : Category)
    (hg : applyGuard r = true)
    (hc : db.categories.find? (fun c => c.name == r.category.getD "") = some cat)
    (hb : cat.bucket_id = none) :
    applyNewEffect db r =
      { db with
          buckets := (updBucket db.nextBucketId
            (addToTotal (if r.transaction_type == some "EXPENSE" then -(r.amount.getD 0)
              else r.amount.getD 0))
            (db.buckets ++ [⟨db.nextBucketId, cat.name, none, none⟩])),
          categories := (db.categories.map fun c =>
            if c.id == cat.id then { c with bucket_id := some db.nextBucketId } else c),
          nextBucketId := db.nextBucketId + 1 } := by
  unfold applyNewEffect
  rw [if_pos hg, hc]
  dsimp only
  rw [hb]
  rfl

/-- Linking a previously unlinked category's bucket respects `catStable`. -/
theorem catStable_map_link (cs : List Category) (hnd : (cs.map Category.id).Nodup)
    (cat : Category) (hmem : cat ∈ cs) (hnone : cat.bucket_id = none) (nb : Nat) :
    catStable cs (cs.map fun c =>
      if c.id == cat.id then { c with bucket_id := some nb } else c) := by
  unfold catStable
  rw [List.forall₂_map_right_iff]
  refine List.forall₂_same.mpr fun c hc => ?_
  by_cases hcid : c.id = cat.id
  · have hceq : c = cat := eq_of_mem_key Category.id cs hnd hc hmem hcid
    subst hceq
    refine ⟨by simp, by simp, ?_⟩
    intro b hb
    rw [hnone] at hb
    cases hb
  · refine ⟨by simp [hcid], by simp [hcid], ?_⟩
    intro b hb
    simp [hcid, hb]

/-- `catStable` keeps the key list. -/
theorem catStable_ids {cs cs' : List Category} (h : catStable cs cs') :
    cs'.map Category.id = cs.map Category.id := by
  induction h with
  | nil => rfl
  | cons hcc h' ih => simp [hcc.1, ih]

/-- `catStable` keeps the name list. -/
theorem catStable_names {cs cs' : List Category} (h : catStable cs cs') :
    cs'.map Category.name = cs.map Category.name := by
  induction h with
  | nil => rfl
  | cons hcc h' ih => simp [hcc.2.1, ih]

/-- `applyNewEffect` never rewrites the transaction table. -/
theorem applyNewEffect_transactions (db : Db) (r : TransactionEntity) :
    (applyNewEffect db r).transactions = db.transactions := by
  unfold applyNewEffect
  by_cases hg : applyGuard r = true
  · rw [if_pos hg]
    cases hc : db.categories.find? (fun c => c.name == r.category.getD "") with
    | none => rfl
    | some cat =>
      obtain ⟨cid, cname, cbid⟩ := cat
      cases cbid with
      | none => rfl
      | some b => rfl
  · rw [if_neg hg]

/-- `applyNewEffect` appends no row logs. -/
theorem applyNewEffect_rlogs (db : Db) (r : TransactionEntity) :
    (applyNewEffect db r).rlogs = db.rlogs := by
  unfold applyNewEffect
  by_cases hg : applyGuard r = true
  · rw [if_pos hg]
    cases hc : db.categories.find? (fun c => c.name == r.category.getD "") with
    | none => rfl
    | some cat =>
      obtain ⟨cid, cname, cbid⟩ := cat
      cases cbid with
      | none => rfl
      | some b => rfl
  · rw [if_neg hg]

/-- `applyNewEffect` respects `catStable` on a unique-key category
table. -/
theorem applyNewEffect_catStable (db : Db) (r : TransactionEntity)
    (hnd : (db.categories.map Category.id).Nodup) :
    catStable db.categories (applyNewEffect db r).categories := by
  by_cases hg : applyGuard r = true
  · cases hc : db.categories.find? (fun c => c.name == r.category.getD "") with
    | none => rw [applyNewEffect_cat_none db r hg hc]; exact catStable_refl _
    | some cat =>
      cases hb : cat.bucket_id with
      | none =>
        rw [applyNewEffect_unlinked db r cat hg hc hb]
        exact catStable_map_link db.categories hnd cat
          (List.mem_of_find?_eq_some hc) hb db.nextBucketId
      | some b =>
        rw [applyNewEffect_linked db r cat b hg hc hb]
        exact catStable_refl _
  · rw [applyNewEffect_guard_false db r (by simpa using hg)]
    exact catStable_refl _

/-- `revertOldEffect` preserves store well-formedness. -/
theorem DbWF_revertOldEffect (db : Db) (am : Option Cents) (cn : String)
    (ty : Option String) (hwf : DbWF db) : DbWF (revertOldEffect db am cn ty) := by
  have hids := revertOldEffect_bucket_ids db am cn ty
  have hcats := revertOldEffect_categories db am cn ty
  have htxns := revertOldEffect_transactions db am cn ty
  refine ⟨?_, ?_, ?_, ?_, ?_, ?_, ?_, ?_, ?_⟩
  · rw [hids]; exact hwf.bucketIds
  · rw [hcats]; exact hwf.catIds
  · rw [htxns]; exact hwf.txnIds
  · have : (revertOldEffect db am cn ty).events = db.events := by
      unfold revertOldEffect
      by_cases hg : revGuard am cn ty = true
      · rw [if_pos hg]
        cases hc : db.categories.find? (fun c => c.name == cn) with
        | none => rfl
        | some cat =>
          obtain ⟨cid, cname, cbid⟩ := cat
          cases cbid with
          | none => rfl
          | some b => rfl
      · rw [if_neg hg]
    rw [this]; exact hwf.eventIds
  · have hnb : (revertOldEffect db am cn ty).nextBucketId = db.nextBucketId := by
      unfold revertOldEffect
      by_cases hg : revGuard am cn ty = true
      · rw [if_pos hg]
        cases hc : db.categories.find? (fun c => c.name == cn) with
        | none => rfl
        | some cat =>
          obtain ⟨cid, cname, cbid⟩ := cat
          cases cbid with
          | none => rfl
          | some b => rfl
      · rw [if_neg hg]
    rw [hnb]
    exact key_lt_of_keys_eq Bucket.id hids db.nextBucketId hwf.bucketFresh
  · have hnc : (revertOldEffect db am cn ty).nextCategoryId = db.nextCategoryId := by
      unfold revertOldEffect
      by_cases hg : revGuard am cn ty = true
      · rw [if_pos hg]
        cases hc : db.categories.find? (fun c => c.name == cn) with
        | none => rfl
        | some cat =>
          obtain ⟨cid, cname, cbid⟩ := cat
          cases cbid with
          | none => rfl
          | some b => rfl
      · rw [if_neg hg]
    rw [hcats, hnc]
    exact hwf.catFresh
  · have hnt : (revertOldEffect db am cn ty).nextTransactionId = db.nextTransactionId := by
      unfold revertOldEffect
      by_cases hg : revGuard am cn ty = true
      · rw [if_pos hg]
        cases hc : db.categories.find? (fun c => c.name == cn) with
        | none => rfl
        | some cat =>
          obtain ⟨cid, cname, cbid⟩ := cat
          cases cbid with
          | none => rfl
          | some b => rfl
      · rw [if_neg hg]
    rw [htxns, hnt]
    exact hwf.txnFresh
  · intro c hc bid hbid
    rw [hids]
    rw [hcats] at hc
    exact hwf.catBucketLink c hc bid hbid
  · rw [htxns]; exact hwf.txnHashes

/-- `applyNewEffect` preserves store well-formedness. -/
theorem DbWF_applyNewEffect (db : Db) (r : TransactionEntity) (hwf : DbWF db) :
    DbWF (applyNewEffect db r) := by
  by_cases hg : applyGuard r = true
  · cases hc : db.categories.find? (fun c => c.name == r.category.getD "") with
    | none => rw [applyNewEffect_cat_none db r hg hc]; exact hwf
    | some cat =>
      cases hb : cat.bucket_id with
      | some b =>
        rw [applyNewEffect_linked db r cat b hg hc hb]
        have hids := updBucket_ids b
          (addToTotal (if r.transaction_type == some "EXPENSE" then -(r.amount.getD 0)
            else r.amount.getD 0)) (fun x => rfl) db.buckets
        refine ⟨?_, hwf.catIds, hwf.txnIds, hwf.eventIds, ?_, hwf.catFresh,
          hwf.txnFresh, ?_, hwf.txnHashes⟩
        · rw [hids]; exact hwf.bucketIds
        · exact key_lt_of_keys_eq Bucket.id hids db.nextBucketId hwf.bucketFresh
        · intro c hc2 bid hbid
          rw [hids]
          exact hwf.catBucketLink c hc2 bid hbid
      | none =>
        rw [applyNewEffect_unlinked db r cat hg hc hb]
        have hcatmem : cat ∈ db.categories := List.mem_of_find?_eq_some hc
        have hids := updBucket_ids db.nextBucketId
          (addToTotal (if r.transaction_type == some "EXPENSE" then -(r.amount.getD 0)
            else r.amount.getD 0)) (fun x => rfl)
          (db.buckets ++ [⟨db.nextBucketId, cat.name, none, none⟩])
        have happend : (db.buckets ++
            [(⟨db.nextBucketId, cat.name, none, none⟩ : Bucket)]).map Bucket.id =
            db.buckets.map Bucket.id ++ [db.nextBucketId] := by
          rw [List.map_append]; rfl
        have hcatids := keys_map_pres Category.id db.categories
          (fun c => if c.id == cat.id then { c with bucket_id := some db.nextBucketId } else c)
          (fun c => by by_cases hx : c.id = cat.id <;> simp [hx])
        refine ⟨?_, ?_, hwf.txnIds, hwf.eventIds, ?_, ?_, hwf.txnFresh, ?_,
          hwf.txnHashes⟩
        · rw [hids]
          exact nodup_keys_append_fresh Bucket.id db.buckets _ hwf.bucketIds
            hwf.bucketFresh
        · rw [hcatids]; exact hwf.catIds
        · intro b hb2
          show b.id < db.nextBucketId + 1
          have : b.id ∈ db.buckets.map Bucket.id ++ [db.nextBucketId] := by
            rw [← happend, ← hids]
            exact List.mem_map_of_mem _ hb2
          rcases List.mem_append.mp this with hold | hnew
          · obtain ⟨y, hy, hyk⟩ := List.mem_map.mp hold
            have := hwf.bucketFresh y hy
            omega
          · have : b.id = db.nextBucketId := by simpa using hnew
            omega
        · exact key_lt_of_keys_eq Category.id hcatids db.nextCategoryId hwf.catFresh
        · intro c hc2 bid hbid
          rw [hids, happend]
          obtain ⟨c0, hc0, rfl⟩ := List.mem_map.mp hc2
          by_cases hx : c0.id = cat.id
          · have : bid = db.nextBucketId := by
              simp only [hx, beq_self_eq_true, if_true] at hbid
              cases hbid
              rfl
            subst this
            simp
          · have : c0.bucket_id = some bid := by
              simpa [hx] using hbid
            exact List.mem_append_left _ (hwf.catBucketLink c0 hc0 bid this)
  · rw [applyNewEffect_guard_false db r (by simpa using hg)]
    exact hwf

/-- One category merge step preserves store well-formedness. -/
theorem DbWF_processCategoryItem (lid : Nat) (db : Db) (item : CategoryEntity)
    (hwf : DbWF db) : DbWF (processCategoryItem lid db item) := by
  unfold processCategoryItem
  cases item.name with
  | none => exact hwf
  | some nm =>
    dsimp only
    cases hfind : db.categories.find? (fun c => c.name == nm) with
    | some c =>
      exact ⟨hwf.bucketIds, hwf.catIds, hwf.txnIds, hwf.eventIds,
        hwf.bucketFresh, hwf.catFresh, hwf.txnFresh, hwf.catBucketLink, hwf.txnHashes⟩
    | none =>
      dsimp only
      refine ⟨?_, ?_, hwf.txnIds, hwf.eventIds, ?_, ?_, hwf.txnFresh, ?_, hwf.txnHashes⟩
      · exact nodup_keys_append_fresh Bucket.id db.buckets _ hwf.bucketIds hwf.bucketFresh
      · exact nodup_keys_append_fresh Category.id db.categories _ hwf.catIds hwf.catFresh
      · intro b hb
        show b.id < db.nextBucketId + 1
        rcases List.mem_append.mp hb with hold | hnew
        · have := hwf.bucketFresh b hold
          omega
        · have : b = ⟨db.nextBucketId, nm, none, none⟩ := by simpa using hnew
          subst this
          simp
      · intro c hc
        show c.id < db.nextCategoryId + 1
        rcases List.mem_append.mp hc with hold | hnew
        · have := hwf.catFresh c hold
          omega
        · have : c = ⟨db.nextCategoryId, nm, some db.nextBucketId⟩ := by simpa using hnew
          subst this
          simp
      · intro c hc bid hbid
        rw [List.map_append]
        rcases List.mem_append.mp hc with hold | hnew
        · exact List.mem_append_left _ (hwf.catBucketLink c hold bid hbid)
        · have : c = ⟨db.nextCategoryId, nm, some db.nextBucketId⟩ := by simpa using hnew
          subst this
          cases hbid
          simp

/-- One transaction merge step preserves store well-formedness. -/
theorem DbWF_processTransactionItem (lid : Nat) (db : Db) (r : TransactionEntity)
    (hwf : DbWF db) : DbWF (processTransactionItem lid db r) := by
  unfold processTransactionItem
  cases hh : r.transaction_hash with
  | none => exact hwf
  | some h =>
    dsimp only
    cases hfind : db.transactions.find? (fun t => t.transaction_hash == some h) with
    | some t =>
      dsimp only
      by_cases hch : txnChanged t r = true
      · rw [if_pos hch]
        have hφid : ∀ u : Transaction,
            ((fun u => if u.id == t.id then txnOverwrite u r else u) u).id = u.id := by
          intro u
          by_cases hx : u.id = t.id <;> simp [hx, txnOverwrite]
        have hφhash : ∀ u : Transaction,
            ((fun u => if u.id == t.id then txnOverwrite u r else u) u).transaction_hash =
              u.transaction_hash := by
          intro u
          by_cases hx : u.id = t.id <;> simp [hx, txnOverwrite]
        have hwf1 : DbWF { db with transactions := (db.transactions.map fun u =>
            if u.id == t.id then txnOverwrite u r else u) } := by
          have hids := keys_map_pres Transaction.id db.transactions _ hφid
          refine ⟨hwf.bucketIds, hwf.catIds, ?_, hwf.eventIds, hwf.bucketFresh,
            hwf.catFresh, ?_, hwf.catBucketLink, ?_⟩
          · rw [hids]; exact hwf.txnIds
          · exact key_lt_of_keys_eq Transaction.id hids db.nextTransactionId hwf.txnFresh
          · rw [filterMap_hash_map db.transactions _ hφhash]
            exact hwf.txnHashes
        have hwf3 := DbWF_applyNewEffect _ r
          (DbWF_revertOldEffect _ t.amount t.category t.transaction_type hwf1)
        exact ⟨hwf3.bucketIds, hwf3.catIds, hwf3.txnIds, hwf3.eventIds,
          hwf3.bucketFresh, hwf3.catFresh, hwf3.txnFresh, hwf3.catBucketLink,
          hwf3.txnHashes⟩
      · rw [if_neg hch]
        exact ⟨hwf.bucketIds, hwf.catIds, hwf.txnIds, hwf.eventIds, hwf.bucketFresh,
          hwf.catFresh, hwf.txnFresh, hwf.catBucketLink, hwf.txnHashes⟩
    | none =>
      dsimp only
      have hwf1 : DbWF { db with
          transactions := db.transactions ++
            [{ id := db.nextTransactionId, amount := r.amount,
               merchant_name := r.merchant_name.getD "", category := r.category.getD "",
               transaction_type := r.transaction_type, transaction_hash := some h,
               is_deleted := r.is_deleted.getD false }],
          nextTransactionId := db.nextTransactionId + 1 } := by
        refine ⟨hwf.bucketIds, hwf.catIds, ?_, hwf.eventIds, hwf.bucketFresh,
          hwf.catFresh, ?_, hwf.catBucketLink, ?_⟩
        · exact nodup_keys_append_fresh Transaction.id db.transactions _ hwf.txnIds
            hwf.txnFresh
        · intro u hu
          show u.id < db.nextTransactionId + 1
          rcases List.mem_append.mp hu with hold | hnew
          · have := hwf.txnFresh u hold
            omega
          · have h2 := List.mem_singleton.mp hnew
            subst h2
            simp
        · exact hashNodup_append db.transactions _ h rfl hfind hwf.txnHashes
      have hwf2 := DbWF_applyNewEffect _ r hwf1
      exact ⟨hwf2.bucketIds, hwf2.catIds, hwf2.txnIds, hwf2.eventIds, hwf2.bucketFresh,
        hwf2.catFresh, hwf2.txnFresh, hwf2.catBucketLink, hwf2.txnHashes⟩

/-- One soft-delete iteration preserves store well-formedness. -/
theorem DbWF_softDeleteStep (hs : List String) (lid : Nat) (db : Db) (t : Transaction)
    (hwf : DbWF db) : DbWF (softDeleteStep hs lid db t) := by
  unfold softDeleteStep
  by_cases htgt : isSoftDeleteTarget hs t = true
  · rw [if_pos htgt]
    have hφid : ∀ u : Transaction,
        ((fun u => if u.id == t.id then { u with is_deleted := true } else u) u).id = u.id := by
      intro u
      by_cases hx : u.id = t.id <;> simp [hx]
    have hφhash : ∀ u : Transaction,
        ((fun u => if u.id == t.id then { u with is_deleted := true } else u) u).transaction_hash =
          u.transaction_hash := by
      intro u
      by_cases hx : u.id = t.id <;> simp [hx]
    have hwf1 : DbWF { db with transactions := (db.transactions.map fun u =>
        if u.id == t.id then { u with is_deleted := true } else u) } := by
      have hids := keys_map_pres Transaction.id db.transactions _ hφid
      refine ⟨hwf.bucketIds, hwf.catIds, ?_, hwf.eventIds, hwf.bucketFresh,
        hwf.catFresh, ?_, hwf.catBucketLink, ?_⟩
      · rw [hids]; exact hwf.txnIds
      · exact key_lt_of_keys_eq Transaction.id hids db.nextTransactionId hwf.txnFresh
      · rw [filterMap_hash_map db.transactions _ hφhash]
        exact hwf.txnHashes
    have hwf2 := DbWF_revertOldEffect _ t.amount t.category t.transaction_type hwf1
    exact ⟨hwf2.bucketIds, hwf2.catIds, hwf2.txnIds, hwf2.eventIds, hwf2.bucketFresh,
      hwf2.catFresh, hwf2.txnFresh, hwf2.catBucketLink, hwf2.txnHashes⟩
  · rw [if_neg htgt]
    exact hwf

/-- Well-formedness survives any fold of well-formedness-preserving
steps. -/
theorem DbWF_foldl {α : Type} (step : Db → α → Db)
    (hstep : ∀ db x, DbWF db → DbWF (step db x)) (L : List α) (db : Db)
    (hwf : DbWF db) : DbWF (L.foldl step db) := by
  induction L generalizing db with
  | nil => exact hwf
  | cons x L ih => exact ih _ (hstep db x hwf)

/-! ### Phase behavior of the category merge -/

/-- The category merge only ever appends categories (and buckets): old
name lookups are preserved, every provided snapshot name ends up present,
and the transaction table is untouched. -/
theorem processCategories_presence (lid : Nat) (items : List CategoryEntity) (db : Db) :
    (∀ nm c, db.categories.find? (fun c2 => c2.name == nm) = some c →
      (processCategories lid db items).categories.find? (fun c2 => c2.name == nm) = some c) ∧
    (∀ r ∈ items, ∀ nm, r.name = some nm →
      ∃ c, (processCategories lid db items).categories.find?
        (fun c2 => c2.name == nm) = some c) ∧
    (processCategories lid db items).transactions = db.transactions := by
  induction items generalizing db with
  | nil => exact ⟨fun _ _ h => h, fun r hr => absurd hr (List.not_mem_nil r), rfl⟩
  | cons item items ih =>
    have hstep : (∀ nm c, db.categories.find? (fun c2 => c2.name == nm) = some c →
        (processCategoryItem lid db item).categories.find?
          (fun c2 => c2.name == nm) = some c) ∧
        (∀ nm, item.name = some nm →
          ∃ c, (processCategoryItem lid db item).categories.find?
            (fun c2 => c2.name == nm) = some c) ∧
        (processCategoryItem lid db item).transactions = db.transactions := by
      unfold processCategoryItem
      cases hname : item.name with
      | none =>
        dsimp only
        exact ⟨fun _ _ h => h, fun nm h => Option.noConfusion h, rfl⟩
      | some nm0 =>
        dsimp only
        cases hfind : db.categories.find? (fun c => c.name == nm0) with
        | some c0 =>
          dsimp only
          refine ⟨fun _ _ h => h, ?_, rfl⟩
          intro nm h
          rw [Option.some_inj] at h
          subst h
          exact ⟨c0, hfind⟩
        | none =>
          dsimp only
          refine ⟨?_, ?_, rfl⟩
          · intro nm c h
            rw [List.find?_append, h]
            rfl
          · intro nm h
            rw [Option.some_inj] at h
            subst h
            refine ⟨⟨db.nextCategoryId, nm0, some db.nextBucketId⟩, ?_⟩
            rw [List.find?_append, hfind]
            simp
    have ihs := ih (processCategoryItem lid db item)
    refine ⟨?_, ?_, ?_⟩
    · intro nm c h
      exact ihs.1 nm c (hstep.1 nm c h)
    · intro r hr nm h
      rcases List.mem_cons.mp hr with rfl | hmem
      · obtain ⟨c, hc⟩ := hstep.2.1 nm h
        exact ⟨c, ihs.1 nm c hc⟩
      · exact ihs.2.1 r hmem nm h
    · exact ihs.2.2.trans hstep.2.2

/-- When every provided category name is already present, the category
merge leaves all tables unchanged and logs only SKIPPED rows. -/
theorem processCategories_noop (lid : Nat) (items : List CategoryEntity) (db : Db)
    (hpres : ∀ r ∈ items, ∀ nm, r.name = some nm →
      ∃ c, db.categories.find? (fun c2 => c2.name == nm) = some c) :
    (processCategories lid db items).buckets = db.buckets ∧
    (processCategories lid db items).categories = db.categories ∧
    (processCategories lid db items).transactions = db.transactions ∧
    (processCategories lid db items).nextBucketId = db.nextBucketId ∧
    (processCategories lid db items).nextCategoryId = db.nextCategoryId ∧
    (processCategories lid db items).nextTransactionId = db.nextTransactionId ∧
    (∀ l ∈ (processCategories lid db items).rlogs, l ∈ db.rlogs ∨ l.action = "SKIPPED") := by
  induction items generalizing db with
  | nil => exact ⟨rfl, rfl, rfl, rfl, rfl, rfl, fun l hl => Or.inl hl⟩
  | cons item items ih =>
    have hstep : (processCategoryItem lid db item).buckets = db.buckets ∧
        (processCategoryItem lid db item).categories = db.categories ∧
        (processCategoryItem lid db item).transactions = db.transactions ∧
        (processCategoryItem lid db item).nextBucketId = db.nextBucketId ∧
        (processCategoryItem lid db item).nextCategoryId = db.nextCategoryId ∧
        (processCategoryItem lid db item).nextTransactionId = db.nextTransactionId ∧
        (∀ l ∈ (processCategoryItem lid db item).rlogs,
          l ∈ db.rlogs ∨ l.action = "SKIPPED") := by
      unfold processCategoryItem
      cases hname : item.name with
      | none =>
        dsimp only
        exact ⟨rfl, rfl, rfl, rfl, rfl, rfl, fun l hl => Or.inl hl⟩
      | some nm0 =>
        dsimp only
        obtain ⟨c0, hc0⟩ := hpres item (List.mem_cons_self item items) nm0 hname
        rw [hc0]
        refine ⟨rfl, rfl, rfl, rfl, rfl, rfl, ?_⟩
        intro l hl
        rcases List.mem_append.mp hl with hold | hnew
        · exact Or.inl hold
        · have hleq : l = (⟨lid, "SKIPPED", "pennywise_categories", none, some c0.id⟩ :
              ImportRowLog) := by
            simpa using hnew
          subst hleq
          exact Or.inr rfl
    have hpres' : ∀ r ∈ items, ∀ nm, r.name = some nm →
        ∃ c, (processCategoryItem lid db item).categories.find?
          (fun c2 => c2.name == nm) = some c := by
      intro r hr nm h
      rw [hstep.2.1]
      exact hpres r (List.mem_cons_of_mem _ hr) nm h
    have ihs := ih (processCategoryItem lid db item) hpres'
    refine ⟨?_, ?_, ?_, ?_, ?_, ?_, ?_⟩
    · exact ihs.1.trans hstep.1
    · exact ihs.2.1.trans hstep.2.1
    · exact ihs.2.2.1.trans hstep.2.2.1
    · exact ihs.2.2.2.1.trans hstep.2.2.2.1
    · exact ihs.2.2.2.2.1.trans hstep.2.2.2.2.1
    · exact ihs.2.2.2.2.2.1.trans hstep.2.2.2.2.2.1
    · intro l hl
      rcases ihs.2.2.2.2.2.2 l hl with hin | hsk
      · rcases hstep.2.2.2.2.2.2 l hin with hin2 | hsk2
        · exact Or.inl hin2
        · exact Or.inr hsk2
      · exact Or.inr hsk

/-! ### The soft-delete pass in each direction -/

/-- The soft-delete loop never touches the category table. -/
theorem softDeletePass_categories (hs : List String) (lid : Nat) (db : Db) :
    (softDeletePass hs lid db).categories = db.categories := by
  unfold softDeletePass
  generalize db.transactions.filter (fun t => !t.is_deleted) = L
  induction L generalizing db with
  | nil => rfl
  | cons t L ih => rw [List.foldl_cons, ih, softDeleteStep_categories]

/-- A loop whose every row fails the target test is the identity. -/
theorem foldl_softDeleteStep_id (hs : List String) (lid : Nat) (L : List Transaction)
    (db : Db) (h : ∀ t ∈ L, isSoftDeleteTarget hs t = false) :
    L.foldl (softDeleteStep hs lid) db = db := by
  induction L generalizing db with
  | nil => rfl
  | cons t L ih =>
    rw [List.foldl_cons, show softDeleteStep hs lid db t = db from by
      unfold softDeleteStep
      rw [if_neg (by simp [h t (List.mem_cons_self t L)])]]
    exact ih _ fun t' ht' => h t' (List.mem_cons_of_mem _ ht')

/-- When no stored non-deleted row is a target, the whole pass is the
identity. -/
theorem softDeletePass_noop (hs : List String) (lid : Nat) (db : Db)
    (hdel : ∀ t ∈ db.transactions, t.is_deleted = false →
      isSoftDeleteTarget hs t = false) :
    softDeletePass hs lid db = db := by
  unfold softDeletePass
  refine foldl_softDeleteStep_id hs lid _ db ?_
  intro t ht
  have h2 := List.mem_filter.mp ht
  exact hdel t h2.1 (by simpa using h2.2)

/-- After the pass, every remaining non-deleted row fails the target
test — which is what makes a second identical pass a no-op. -/
theorem softDeletePass_hdel (hs : List String) (lid : Nat) (db : Db)
    (hnd : (db.transactions.map Transaction.id).Nodup) :
    ∀ t ∈ (softDeletePass hs lid db).transactions, t.is_deleted = false →
      isSoftDeleteTarget hs t = false := by
  intro t ht hdel
  rw [softDeletePass_transactions hs lid db hnd] at ht
  obtain ⟨u, hu, hmap⟩ := List.mem_map.mp ht
  by_cases hcase : (!u.is_deleted && isSoftDeleteTarget hs u) = true
  · rw [if_pos hcase] at hmap
    rw [← hmap] at hdel
    simp [markDeleted] at hdel
  · rw [if_neg hcase] at hmap
    subst hmap
    cases htg : isSoftDeleteTarget hs u with
    | false => rfl
    | true => exact absurd (by simp [hdel, htg]) hcase

/-! ### Shapes of one transaction-merge step -/

/-- A keyless record is skipped silently. -/
theorem processTransactionItem_none (lid : Nat) (db : Db) (r : TransactionEntity)
    (hh : r.transaction_hash = none) : processTransactionItem lid db r = db := by
  unfold processTransactionItem
  rw [hh]

/-- The SKIPPED branch: an unchanged match only appends a row log. -/
theorem processTransactionItem_skip (lid : Nat) (db : Db) (r : TransactionEntity)
    (h : String) (t : Transaction) (hh : r.transaction_hash = some h)
    (hft : db.transactions.find? (fun u => u.transaction_hash == some h) = some t)
    (hch : txnChanged t r = false) :
    processTransactionItem lid db r =
      { db with rlogs := db.rlogs ++ [txnRowLog lid "SKIPPED" t.id] } := by
  unfold processTransactionItem
  rw [hh]
  dsimp only
  rw [hft]
  dsimp only
  rw [if_neg (by simp [hch])]

/-- The UPDATED branch written out: overwrite, revert the old effect,
apply the new one, log. -/
def updatedState (lid : Nat) (db : Db) (r : TransactionEntity) (t : Transaction) : Db :=
  let db1 : Db := { db with transactions := db.transactions.map fun u =>
    if u.id == t.id then txnOverwrite u r else u }
  let db2 := revertOldEffect db1 t.amount t.category t.transaction_type
  let db3 := applyNewEffect db2 r
  { db3 with rlogs := db3.rlogs ++ [txnRowLog lid "UPDATED" t.id] }

theorem processTransactionItem_updated (lid : Nat) (db : Db) (r : TransactionEntity)
    (h : String) (t : Transaction) (hh : r.transaction_hash = some h)
    (hft : db.transactions.find? (fun u => u.transaction_hash == some h) = some t)
    (hch : txnChanged t r = true) :
    processTransactionItem lid db r = updatedState lid db r t := by
  unfold processTransactionItem updatedState
  rw [hh]
  dsimp only
  rw [hft]
  dsimp only
  rw [if_pos hch]

/-- The ADDED branch written out: insert, apply the new effect, log. -/
def addedState (lid : Nat) (db : Db) (r : TransactionEntity) (h : String) : Db :=
  let newT : Transaction := ⟨db.nextTransactionId, r.amount, r.merchant_name.getD "",
    r.category.getD "", r.transaction_type, some h, r.is_deleted.getD false⟩
  let db1 : Db := { db with transactions := db.transactions ++ [newT],
                            nextTransactionId := db.nextTransactionId + 1 }
  let db2 := applyNewEffect db1 r
  { db2 with rlogs := db2.rlogs ++ [txnRowLog lid "ADDED" db.nextTransactionId] }

theorem processTransactionItem_added (lid : Nat) (db : Db) (r : TransactionEntity)
    (h : String) (hh : r.transaction_hash = some h)
    (hft : db.transactions.find? (fun u => u.transaction_hash == some h) = none) :
    processTransactionItem lid db r = addedState lid db r h := by
  unfold processTransactionItem addedState
  rw [hh]
  dsimp only
  rw [hft]

/-! ### Field agreement after one step -/

/-- After the overwrite, the stored row carries every provided field. -/
theorem agreesWith_txnOverwrite (t : Transaction) (r : TransactionEntity) :
    agreesWith (txnOverwrite t r) r := by
  refine ⟨?_, ?_, ?_, ?_, ?_⟩ <;> intro v hv <;> simp [txnOverwrite, hv]

/-- When the change detection is silent, the stored row already agreed
with the record. -/
theorem agreesWith_of_not_changed (t : Transaction) (r : TransactionEntity)
    (h : txnChanged t r = false) : agreesWith t r := by
  unfold txnChanged at h
  simp only [Bool.or_eq_false_iff] at h
  obtain ⟨⟨⟨⟨h1, h2⟩, h3⟩, h4⟩, h5⟩ := h
  refine ⟨?_, ?_, ?_, ?_, ?_⟩
  · intro m hm; rw [hm] at h1; simpa using h1
  · intro c hc; rw [hc] at h2; simpa using h2
  · intro ty hty; rw [hty] at h3; simpa using h3
  · intro a ha; rw [ha] at h4; simp at h4
  · intro b hb; rw [hb] at h5; simpa using h5

/-- A freshly inserted row carries every provided field. -/
theorem agreesWith_newT (tid : Nat) (h : String) (r : TransactionEntity) :
    agreesWith ⟨tid, r.amount, r.merchant_name.getD "", r.category.getD "",
      r.transaction_type, some h, r.is_deleted.getD false⟩ r := by
  refine ⟨?_, ?_, ?_, ?_, ?_⟩ <;> intro v hv <;> simp [hv]

/-! ### Readiness of a record against a category table -/

/-- `readyAt cs r`: if `r`'s apply guard holds and its category resolves
in `cs`, the resolved category is bucket-linked — so a later replay of
`r`'s effect will not take the lazy-creation branch. -/
def readyAt (cs : List Category) (r : TransactionEntity) : Prop :=
  applyGuard r = true →
    ∀ cat, cs.find? (fun c => c.name == r.category.getD "") = some cat →
      cat.bucket_id.isSome = true

/-- Readiness transports along category-table evolution. -/
theorem readyAt_mono {cs cs' : List Category} (h : catStable cs cs')
    (r : TransactionEntity) (hr : readyAt cs r) : readyAt cs' r := by
  intro hg cat' hfind'
  cases hf : cs.find? (fun c => c.name == r.category.getD "") with
  | none =>
    rw [(catStable_find? h _).1 hf] at hfind'
    cases hfind'
  | some cat0 =>
    obtain ⟨c', hc', _, _, hmono⟩ := (catStable_find? h _).2 cat0 hf
    rw [hc'] at hfind'
    rw [Option.some_inj] at hfind'
    subst hfind'
    have hs0 := hr hg cat0 hf
    obtain ⟨b, hb⟩ := Option.isSome_iff_exists.mp hs0
    rw [hmono b hb]
    rfl

/-- Replaying a record immediately after its own effect is ready: the
apply either found a linked category or linked one itself. -/
theorem readyAt_applyNewEffect (db : Db) (r : TransactionEntity)
    (hnd : (db.categories.map Category.id).Nodup) :
    readyAt (applyNewEffect db r).categories r := by
  intro hg cat' hfind'
  cases hc : db.categories.find? (fun c => c.name == r.category.getD "") with
  | none =>
    rw [applyNewEffect_cat_none db r hg hc, hc] at hfind'
    cases hfind'
  | some cat =>
    cases hb : cat.bucket_id with
    | some b =>
      rw [applyNewEffect_linked db r cat b hg hc hb] at hfind'
      dsimp only at hfind'
      rw [hc] at hfind'
      rw [Option.some_inj] at hfind'
      subst hfind'
      rw [hb]
      rfl
    | none =>
      rw [applyNewEffect_unlinked db r cat hg hc hb] at hfind'
      dsimp only at hfind'
      rw [find?_map_comm
          (fun c : Category =>
            if c.id == cat.id then { c with bucket_id := some db.nextBucketId } else c)
          (fun c : Category => c.name == r.category.getD "")
          (by intro c; by_cases hx : c.id = cat.id <;> simp [hx]), hc] at hfind'
      rw [Option.map_some'] at hfind'
      rw [Option.some_inj] at hfind'
      subst hfind'
      simp

/-! ### Components of the two mutating shapes -/

theorem updatedState_transactions (lid : Nat) (db : Db) (r : TransactionEntity)
    (t : Transaction) :
    (updatedState lid db r t).transactions =
      db.transactions.map fun u => if u.id == t.id then txnOverwrite u r else u := by
  unfold updatedState
  dsimp only
  rw [applyNewEffect_transactions, revertOldEffect_transactions]

theorem updatedState_rlogs (lid : Nat) (db : Db) (r : TransactionEntity)
    (t : Transaction) :
    (updatedState lid db r t).rlogs = db.rlogs ++ [txnRowLog lid "UPDATED" t.id] := by
  unfold updatedState
  dsimp only
  rw [applyNewEffect_rlogs, revertOldEffect_rlogs]

theorem updatedState_catStable (lid : Nat) (db : Db) (r : TransactionEntity)
    (t : Transaction) (hnd : (db.categories.map Category.id).Nodup) :
    catStable db.categories (updatedState lid db r t).categories := by
  have key : ∀ d : Db, d.categories = db.categories →
      catStable db.categories
        (applyNewEffect (revertOldEffect d t.amount t.category t.transaction_type)
          r).categories := by
    intro d hd
    have h2 := applyNewEffect_catStable
      (revertOldEffect d t.amount t.category t.transaction_type) r
      (by rw [revertOldEffect_categories, hd]; exact hnd)
    rw [revertOldEffect_categories, hd] at h2
    exact h2
  exact key _ rfl

theorem updatedState_readyAt (lid : Nat) (db : Db) (r : TransactionEntity)
    (t : Transaction) (hnd : (db.categories.map Category.id).Nodup) :
    readyAt (updatedState lid db r t).categories r := by
  have key : ∀ d : Db, d.categories = db.categories →
      readyAt
        (applyNewEffect (revertOldEffect d t.amount t.category t.transaction_type)
          r).categories r := by
    intro d hd
    exact readyAt_applyNewEffect _ r (by rw [revertOldEffect_categories, hd]; exact hnd)
  exact key _ rfl

theorem addedState_transactions (lid : Nat) (db : Db) (r : TransactionEntity)
    (h : String) :
    (addedState lid db r h).transactions = db.transactions ++
      [⟨db.nextTransactionId, r.amount, r.merchant_name.getD "", r.category.getD "",
        r.transaction_type, some h, r.is_deleted.getD false⟩] := by
  unfold addedState
  dsimp only
  rw [applyNewEffect_transactions]

theorem addedState_rlogs (lid : Nat) (db : Db) (r : TransactionEntity) (h : String) :
    (addedState lid db r h).rlogs =
      db.rlogs ++ [txnRowLog lid "ADDED" db.nextTransactionId] := by
  unfold addedState
  dsimp only
  rw [applyNewEffect_rlogs]

theorem addedState_catStable (lid : Nat) (db : Db) (r : TransactionEntity) (h : String)
    (hnd : (db.categories.map Category.id).Nodup) :
    catStable db.categories (addedState lid db r h).categories := by
  have key : ∀ d : Db, d.categories = db.categories →
      catStable db.categories (applyNewEffect d r).categories := by
    intro d hd
    have h2 := applyNewEffect_catStable d r (by rw [hd]; exact hnd)
    rw [hd] at h2
    exact h2
  exact key _ rfl

theorem addedState_readyAt (lid : Nat) (db : Db) (r : TransactionEntity) (h : String)
    (hnd : (db.categories.map Category.id).Nodup) :
    readyAt (addedState lid db r h).categories r := by
  have key : ∀ d : Db, d.categories = db.categories →
      readyAt (applyNewEffect d r).categories r := by
    intro d hd
    exact readyAt_applyNewEffect d r (by rw [hd]; exact hnd)
  exact key _ rfl

/-- The apply guard cannot hold without a provided amount. -/
theorem applyGuard_false_of_amount_none (r : TransactionEntity)
    (h : r.amount.isSome = false) : applyGuard r = false := by
  unfold applyGuard
  cases ham : r.amount with
  | none => rfl
  | some a => rw [ham] at h; simp at h

/-! ### A record established against a store -/

/-- `establishedAt db r`: if `r` carries a key, some stored row carries
that key and agrees with `r` on every provided field, and `r` is ready
against the category table.  This is the state of affairs a first merge
pass leaves behind, and what makes a second pass inert. -/
def establishedAt (db : Db) (r : TransactionEntity) : Prop :=
  ∀ h, r.transaction_hash = some h →
    (∃ t, db.transactions.find? (fun u => u.transaction_hash == some h) = some t ∧
      agreesWith t r) ∧ readyAt db.categories r

theorem establishedAt_of_eq {db db' : Db} (hc : db'.categories = db.categories)
    (ht : db'.transactions = db.transactions) (r : TransactionEntity)
    (h : establishedAt db r) : establishedAt db' r := by
  intro h0 hh
  rw [ht, hc]
  exact h h0 hh

/-- One merge step establishes its own record. -/
theorem processTransactionItem_establishes (lid : Nat) (db : Db) (r : TransactionEntity)
    (hwf : DbWF db) : establishedAt (processTransactionItem lid db r) r := by
  intro h hh
  cases hft : db.transactions.find? (fun u => u.transaction_hash == some h) with
  | some t =>
    by_cases hch : txnChanged t r = true
    · rw [processTransactionItem_updated lid db r h t hh hft hch]
      constructor
      · rw [updatedState_transactions]
        rw [find?_map_comm (fun u : Transaction => if u.id == t.id then txnOverwrite u r else u)
            (fun u : Transaction => u.transaction_hash == some h)
            (by intro u; by_cases hx : u.id = t.id <;> simp [hx, txnOverwrite]), hft]
        rw [Option.map_some']
        exact ⟨txnOverwrite t r, by simp, agreesWith_txnOverwrite t r⟩
      · exact updatedState_readyAt lid db r t hwf.catIds
    · have hch' : txnChanged t r = false := by simpa using hch
      rw [processTransactionItem_skip lid db r h t hh hft hch']
      refine ⟨⟨t, hft, agreesWith_of_not_changed t r hch'⟩, ?_⟩
      intro hg cat hfind
      exfalso
      have h4 : r.amount.isSome = false := by
        unfold txnChanged at hch'
        simp only [Bool.or_eq_false_iff] at hch'
        exact hch'.1.2
      rw [applyGuard_false_of_amount_none r h4] at hg
      cases hg
  | none =>
    rw [processTransactionItem_added lid db r h hh hft]
    constructor
    · rw [addedState_transactions]
      rw [List.find?_append, hft]
      refine ⟨⟨db.nextTransactionId, r.amount, r.merchant_name.getD "",
        r.category.getD "", r.transaction_type, some h, r.is_deleted.getD false⟩, ?_,
        agreesWith_newT db.nextTransactionId h r⟩
      simp [List.find?]
    · exact addedState_readyAt lid db r h hwf.catIds

/-- One merge step preserves the stored row found under any *other*
key. -/
theorem processTransactionItem_pres_hash (lid : Nat) (db : Db) (r : TransactionEntity)
    (hwf : DbWF db) (h : String) (hne : r.transaction_hash ≠ some h) (t : Transaction)
    (hf : db.transactions.find? (fun u => u.transaction_hash == some h) = some t) :
    (processTransactionItem lid db r).transactions.find?
      (fun u => u.transaction_hash == some h) = some t := by
  cases hh : r.transaction_hash with
  | none => rw [processTransactionItem_none lid db r hh]; exact hf
  | some h2 =>
    have hne' : h2 ≠ h := fun he => hne (by rw [hh, he])
    cases hft : db.transactions.find? (fun u => u.transaction_hash == some h2) with
    | some t2 =>
      by_cases hch : txnChanged t2 r = true
      · rw [processTransactionItem_updated lid db r h2 t2 hh hft hch]
        rw [updatedState_transactions]
        rw [find?_map_comm (fun u : Transaction => if u.id == t2.id then txnOverwrite u r else u)
            (fun u : Transaction => u.transaction_hash == some h)
            (by intro u; by_cases hx : u.id = t2.id <;> simp [hx, txnOverwrite]), hf]
        rw [Option.map_some']
        have hmem_t := List.mem_of_find?_eq_some hf
        have hmem_t2 := List.mem_of_find?_eq_some hft
        have hh_t : t.transaction_hash = some h := by
          have := List.find?_some hf
          simpa using this
        have hh_t2 : t2.transaction_hash = some h2 := by
          have := List.find?_some hft
          simpa using this
        have hid : t.id ≠ t2.id := by
          intro he
          have heq : t = t2 :=
            eq_of_mem_key Transaction.id db.transactions hwf.txnIds hmem_t hmem_t2 he
          rw [heq] at hh_t
          exact hne' (Option.some_inj.mp (hh_t2.symm.trans hh_t))
        simp [hid]
      · rw [processTransactionItem_skip lid db r h2 t2 hh hft (by simpa using hch)]
        exact hf
    | none =>
      rw [processTransactionItem_added lid db r h2 hh hft]
      rw [addedState_transactions]
      rw [List.find?_append, hf]
      rfl

/-- One merge step evolves the category table along `catStable`. -/
theorem processTransactionItem_catStable (lid : Nat) (db : Db) (r : TransactionEntity)
    (hnd : (db.categories.map Category.id).Nodup) :
    catStable db.categories (processTransactionItem lid db r).categories := by
  cases hh : r.transaction_hash with
  | none => rw [processTransactionItem_none lid db r hh]; exact catStable_refl _
  | some h =>
    cases hft : db.transactions.find? (fun u => u.transaction_hash == some h) with
    | some t =>
      by_cases hch : txnChanged t r = true
      · rw [processTransactionItem_updated lid db r h t hh hft hch]
        exact updatedState_catStable lid db r t hnd
      · rw [processTransactionItem_skip lid db r h t hh hft (by simpa using hch)]
        exact catStable_refl _
    | none =>
      rw [processTransactionItem_added lid db r h hh hft]
      exact addedState_catStable lid db r h hnd

/-! ### A second look at an established record -/

/-- Replaying a record that is already established (and that provides its
category and type) cannot move data: tables are unchanged, every bucket
balance is unchanged (an UPDATED replay reverts and reapplies the *same*
delta), and the only new row logs are SKIPPED or UPDATED. -/
theorem processTransactionItem_second (lid : Nat) (db : Db) (r : TransactionEntity)
    (hwf : DbWF db) (hcat : r.category.isSome = true)
    (hty : r.transaction_type.isSome = true) (hest : establishedAt db r) :
    (processTransactionItem lid db r).categories = db.categories ∧
    (processTransactionItem lid db r).transactions = db.transactions ∧
    (∀ bid, balOf (processTransactionItem lid db r).buckets bid = balOf db.buckets bid) ∧
    (∀ l ∈ (processTransactionItem lid db r).rlogs,
      l ∈ db.rlogs ∨ l.action = "SKIPPED" ∨ l.action = "UPDATED") := by
  cases hh : r.transaction_hash with
  | none =>
    rw [processTransactionItem_none lid db r hh]
    exact ⟨rfl, rfl, fun _ => rfl, fun l hl => Or.inl hl⟩
  | some h =>
    obtain ⟨⟨t, hft, hag⟩, hready⟩ := hest h hh
    have hchv := txnChanged_of_agreesWith t r hag
    cases ham : r.amount with
    | none =>
      have hch : txnChanged t r = false := by rw [hchv, ham]; rfl
      rw [processTransactionItem_skip lid db r h t hh hft hch]
      refine ⟨rfl, rfl, fun _ => rfl, ?_⟩
      intro l hl
      rcases List.mem_append.mp hl with hold | hnew
      · exact Or.inl hold
      · have hl2 : l = txnRowLog lid "SKIPPED" t.id := List.mem_singleton.mp hnew
        subst hl2
        exact Or.inr (Or.inl rfl)
    | some a =>
      have hch : txnChanged t r = true := by rw [hchv, ham]; rfl
      rw [processTransactionItem_updated lid db r h t hh hft hch]
      obtain ⟨c, hc⟩ := Option.isSome_iff_exists.mp hcat
      obtain ⟨ty, hty2⟩ := Option.isSome_iff_exists.mp hty
      have htc : t.category = c := hag.2.1 c hc
      have htty : t.transaction_type = some ty := hag.2.2.1 ty hty2
      have hta : t.amount = some a := hag.2.2.2.1 a ham
      have hmem_t := List.mem_of_find?_eq_some hft
      have hmap : (db.transactions.map fun u =>
          if u.id == t.id then txnOverwrite u r else u) = db.transactions := by
        have hptw : ∀ u ∈ db.transactions,
            (if u.id == t.id then txnOverwrite u r else u) = u := by
          intro u hu
          by_cases hx : u.id = t.id
          · have heq : u = t :=
              eq_of_mem_key Transaction.id db.transactions hwf.txnIds hu hmem_t hx
            subst heq
            simp [txnOverwrite_of_agreesWith u r hag]
          · simp [hx]
        rw [List.map_congr_left hptw]
        simp
      have hguards : revGuard t.amount t.category t.transaction_type = applyGuard r := by
        rw [applyGuard_eq_revGuard r c hc, htc, htty, hta, ham, hty2]
      have hcore : ∀ d : Db, d.categories = db.categories → d.buckets = db.buckets →
          (applyNewEffect (revertOldEffect d t.amount t.category t.transaction_type)
            r).categories = db.categories ∧
          (applyNewEffect (revertOldEffect d t.amount t.category t.transaction_type)
            r).transactions = d.transactions ∧
          (∀ bid, balOf
            (applyNewEffect (revertOldEffect d t.amount t.category t.transaction_type)
              r).buckets bid = balOf db.buckets bid) ∧
          (applyNewEffect (revertOldEffect d t.amount t.category t.transaction_type)
            r).rlogs = d.rlogs := by
        intro d hdc hdb
        by_cases hg : applyGuard r = true
        · cases hfc : db.categories.find? (fun c2 => c2.name == c) with
          | none =>
            have hrg : revGuard t.amount t.category t.transaction_type = true := by
              rw [hguards]; exact hg
            rw [revertOldEffect_cat_none d t.amount t.category t.transaction_type hrg
              (by rw [htc, hdc]; exact hfc)]
            rw [applyNewEffect_cat_none d r hg (by rw [hc, hdc]; exact hfc)]
            exact ⟨hdc, rfl, fun bid => by rw [hdb], rfl⟩
          | some cat =>
            have hcatb := hready hg cat (by rw [hc]; exact hfc)
            obtain ⟨b, hb⟩ := Option.isSome_iff_exists.mp hcatb
            have hrg : revGuard t.amount t.category t.transaction_type = true := by
              rw [hguards]; exact hg
            rw [revertOldEffect_linked d t.amount t.category t.transaction_type cat b hrg
              (by rw [htc, hdc]; exact hfc) hb]
            rw [applyNewEffect_linked _ r cat b hg
              (by show d.categories.find?
                    (fun c2 => c2.name == r.category.getD "") = some cat
                  rw [hc, hdc]; exact hfc) hb]
            refine ⟨hdc, rfl, ?_, rfl⟩
            intro bid
            dsimp only
            rw [hdb]
            refine balOf_updBucket_add_cancel db.buckets b _ _ ?_ bid
            rw [hta, htty, ham, hty2]
            by_cases hex : ty = "EXPENSE"
            · simp [hex]
            · simp [hex]
        · have hgf : applyGuard r = false := by simpa using hg
          have hrf : revGuard t.amount t.category t.transaction_type = false := by
            rw [hguards]; exact hgf
          rw [revertOldEffect_guard_false d t.amount t.category t.transaction_type hrf,
            applyNewEffect_guard_false d r hgf]
          exact ⟨hdc, rfl, fun bid => by rw [hdb], rfl⟩
      have hu := hcore { db with transactions := db.transactions.map fun u =>
          if u.id == t.id then txnOverwrite u r else u } rfl rfl
      refine ⟨?_, ?_, ?_, ?_⟩
      · unfold updatedState
        dsimp only
        exact hu.1
      · unfold updatedState
        dsimp only
        rw [hu.2.1]
        exact hmap
      · intro bid
        unfold updatedState
        dsimp only
        exact hu.2.2.1 bid
      · intro l hl
        rw [updatedState_rlogs] at hl
        rcases List.mem_append.mp hl with hold | hnew
        · exact Or.inl hold
        · have hl2 : l = txnRowLog lid "UPDATED" t.id := List.mem_singleton.mp hnew
          subst hl2
          exact Or.inr (Or.inr rfl)

/-! ### The transaction merge, pass by pass -/

/-- A first transaction merge pass establishes every record of a
well-keyed collection, evolving the category table along `catStable` and
preserving rows stored under keys the collection does not carry. -/
theorem processTransactions_establishes (lid : Nat) (rs : List TransactionEntity)
    (db : Db) (hwf : DbWF db)
    (hnd : (rs.filterMap TransactionEntity.transaction_hash).Nodup) :
    DbWF (processTransactions lid db rs) ∧
    catStable db.categories (processTransactions lid db rs).categories ∧
    (∀ h t, (∀ r ∈ rs, r.transaction_hash ≠ some h) →
      db.transactions.find? (fun u => u.transaction_hash == some h) = some t →
      (processTransactions lid db rs).transactions.find?
        (fun u => u.transaction_hash == some h) = some t) ∧
    (∀ r ∈ rs, establishedAt (processTransactions lid db rs) r) := by
  induction rs generalizing db with
  | nil =>
    exact ⟨hwf, catStable_refl _, fun _ _ _ hf => hf,
      fun r hr => absurd hr (List.not_mem_nil r)⟩
  | cons r rs ih =>
    have hwf' := DbWF_processTransactionItem lid db r hwf
    have hnd' : (rs.filterMap TransactionEntity.transaction_hash).Nodup := by
      cases hh : r.transaction_hash with
      | none => simp only [List.filterMap_cons, hh] at hnd; exact hnd
      | some h =>
        simp only [List.filterMap_cons, hh, List.nodup_cons] at hnd
        exact hnd.2
    have ihs := ih (processTransactionItem lid db r) hwf' hnd'
    refine ⟨ihs.1, ?_, ?_, ?_⟩
    · exact catStable_trans (processTransactionItem_catStable lid db r hwf.catIds) ihs.2.1
    · intro h t hno hf
      have hno' : ∀ r2 ∈ rs, r2.transaction_hash ≠ some h :=
        fun r2 hr2 => hno r2 (List.mem_cons_of_mem _ hr2)
      exact ihs.2.2.1 h t hno'
        (processTransactionItem_pres_hash lid db r hwf h
          (hno r (List.mem_cons_self r rs)) t hf)
    · intro r2 hr2
      rcases List.mem_cons.mp hr2 with rfl | hmem
      · have hest1 := processTransactionItem_establishes lid db r2 hwf
        intro h hh
        obtain ⟨⟨t, hft, hag⟩, hready⟩ := hest1 h hh
        refine ⟨?_, ?_⟩
        · have hno : ∀ r3 ∈ rs, r3.transaction_hash ≠ some h := by
            intro r3 hr3 he
            have hrest : h ∈ rs.filterMap TransactionEntity.transaction_hash :=
              List.mem_filterMap.mpr ⟨r3, hr3, he⟩
            have hnotin : ¬ h ∈ rs.filterMap TransactionEntity.transaction_hash := by
              simp only [List.filterMap_cons, hh, List.nodup_cons] at hnd
              exact hnd.1
            exact hnotin hrest
          exact ⟨t, ihs.2.2.1 h t hno hft, hag⟩
        · exact readyAt_mono ihs.2.1 r2 hready
      · exact ihs.2.2.2 r2 hmem

/-- A second pass over established records (each providing category and
type) moves no data and logs only SKIPPED or UPDATED rows. -/
theorem processTransactions_second (lid : Nat) (rs : List TransactionEntity) (db : Db)
    (hwf : DbWF db)
    (hcat : ∀ r ∈ rs, r.category.isSome = true)
    (hty : ∀ r ∈ rs, r.transaction_type.isSome = true)
    (hest : ∀ r ∈ rs, establishedAt db r) :
    (processTransactions lid db rs).categories = db.categories ∧
    (processTransactions lid db rs).transactions = db.transactions ∧
    (∀ bid, balOf (processTransactions lid db rs).buckets bid = balOf db.buckets bid) ∧
    (∀ l ∈ (processTransactions lid db rs).rlogs,
      l ∈ db.rlogs ∨ l.action = "SKIPPED" ∨ l.action = "UPDATED") := by
  induction rs generalizing db with
  | nil => exact ⟨rfl, rfl, fun _ => rfl, fun l hl => Or.inl hl⟩
  | cons r rs ih =>
    have hstep := processTransactionItem_second lid db r hwf
      (hcat r (List.mem_cons_self r rs)) (hty r (List.mem_cons_self r rs))
      (hest r (List.mem_cons_self r rs))
    have hwf' := DbWF_processTransactionItem lid db r hwf
    have hest' : ∀ r2 ∈ rs, establishedAt (processTransactionItem lid db r) r2 :=
      fun r2 hr2 =>
        establishedAt_of_eq hstep.1 hstep.2.1 r2 (hest r2 (List.mem_cons_of_mem _ hr2))
    have ihs := ih (processTransactionItem lid db r) hwf'
      (fun r2 hr2 => hcat r2 (List.mem_cons_of_mem _ hr2))
      (fun r2 hr2 => hty r2 (List.mem_cons_of_mem _ hr2))
      hest'
    refine ⟨ihs.1.trans hstep.1, ihs.2.1.trans hstep.2.1, ?_, ?_⟩
    · intro bid
      exact (ihs.2.2.1 bid).trans (hstep.2.2.1 bid)
    · intro l hl
      rcases ihs.2.2.2 l hl with hin | hrest
      · rcases hstep.2.2.2 l hin with h1 | h2
        · exact Or.inl h1
        · exact Or.inr h2
      · exact Or.inr hrest

/-- The soft-delete pass does not disturb a record whose key is in the
snapshot's key set. -/
theorem establishedAt_softDeletePass (hs : List String) (lid : Nat) (db : Db)
    (hnd : (db.transactions.map Transaction.id).Nodup) (r : TransactionEntity)
    (hin : ∀ h, r.transaction_hash = some h → h ∈ hs)
    (hest : establishedAt db r) : establishedAt (softDeletePass hs lid db) r := by
  intro h hh
  obtain ⟨⟨t, hft, hag⟩, hready⟩ := hest h hh
  constructor
  · rw [softDeletePass_transactions hs lid db hnd]
    rw [find?_map_comm
        (fun t : Transaction =>
          if !t.is_deleted && isSoftDeleteTarget hs t then markDeleted t else t)
        (fun u : Transaction => u.transaction_hash == some h)
        (by intro u
            by_cases hx : (!u.is_deleted && isSoftDeleteTarget hs u) = true <;>
              simp [hx, markDeleted]), hft]
    rw [Option.map_some']
    have hh_t : t.transaction_hash = some h := by
      have := List.find?_some hft
      simpa using this
    have htg : isSoftDeleteTarget hs t = false := by
      unfold isSoftDeleteTarget
      rw [hh_t]
      simp [hin h hh]
    refine ⟨t, ?_, hag⟩
    rw [htg]
    simp
  · rw [softDeletePass_categories]
    exact hready

/-- The STARTED log row touches no entity table. -/
theorem DbWF_startedState (fn : String) (db : Db) (hwf : DbWF db) :
    DbWF (startedState fn db) :=
  ⟨hwf.bucketIds, hwf.catIds, hwf.txnIds, hwf.eventIds, hwf.bucketFresh, hwf.catFresh,
    hwf.txnFresh, hwf.catBucketLink, hwf.txnHashes⟩

/-- One full merge of a well-keyed snapshot leaves the store well-formed,
with every snapshot category name present, every transaction record
established, and no remaining non-deleted row a soft-delete target. -/
theorem runMerge_establishes (snap : DatabaseSnapshot) (lid : Nat) (db : Db)
    (hwf : DbWF db) (hsw : SnapWF snap) :
    DbWF (runMerge snap lid db) ∧
    (∀ item ∈ snap.categories, ∀ nm, item.name = some nm →
      ∃ c, (runMerge snap lid db).categories.find? (fun c2 => c2.name == nm) = some c) ∧
    (∀ r ∈ snap.transactions, establishedAt (runMerge snap lid db) r) ∧
    (∀ t ∈ (runMerge snap lid db).transactions, t.is_deleted = false →
      isSoftDeleteTarget (snapHashes snap.transactions) t = false) := by
  unfold runMerge
  have hwf1 : DbWF (processCategories lid db snap.categories) :=
    DbWF_foldl _ (fun d x h => DbWF_processCategoryItem lid d x h) _ db hwf
  have hpres1 := processCategories_presence lid snap.categories db
  have hest2 := processTransactions_establishes lid snap.transactions
    (processCategories lid db snap.categories) hwf1 hsw.hashesNodup
  have hwf2 := hest2.1
  have hwf3 : DbWF (softDeletePass (snapHashes snap.transactions) lid
      (processTransactions lid (processCategories lid db snap.categories)
        snap.transactions)) := by
    unfold softDeletePass
    exact DbWF_foldl _
      (fun d x h => DbWF_softDeleteStep (snapHashes snap.transactions) lid d x h) _ _ hwf2
  refine ⟨hwf3, ?_, ?_, ?_⟩
  · intro item hitem nm hnm
    obtain ⟨c, hc⟩ := hpres1.2.1 item hitem nm hnm
    obtain ⟨c', hc', _⟩ := (catStable_find? hest2.2.1 nm).2 c hc
    refine ⟨c', ?_⟩
    rw [softDeletePass_categories]
    exact hc'
  · intro r hr
    refine establishedAt_softDeletePass (snapHashes snap.transactions) lid _
      hwf2.txnIds r ?_ (hest2.2.2.2 r hr)
    intro h hh
    obtain ⟨h2, hh2, hne2⟩ := hsw.hashes r hr
    have hhe : h2 = h := Option.some_inj.mp (hh2.symm.trans hh)
    subst hhe
    exact List.mem_filter.mpr ⟨List.mem_filterMap.mpr ⟨r, hr, hh2⟩, by simp [hne2]⟩
  · exact softDeletePass_hdel (snapHashes snap.transactions) lid _ hwf2.txnIds

/-- A full merge replayed against a store where the snapshot is already
established moves no table and no balance, and its row logs are all
SKIPPED or UPDATED. -/
theorem runMerge_second (snap : DatabaseSnapshot) (lid : Nat) (db : Db)
    (hwf : DbWF db) (hsw : SnapWF snap)
    (hpres : ∀ item ∈ snap.categories, ∀ nm, item.name = some nm →
      ∃ c, db.categories.find? (fun c2 => c2.name == nm) = some c)
    (hest : ∀ r ∈ snap.transactions, establishedAt db r)
    (hdel : ∀ t ∈ db.transactions, t.is_deleted = false →
      isSoftDeleteTarget (snapHashes snap.transactions) t = false) :
    (runMerge snap lid db).categories = db.categories ∧
    (runMerge snap lid db).transactions = db.transactions ∧
    (∀ bid, balOf (runMerge snap lid db).buckets bid = balOf db.buckets bid) ∧
    (∀ l ∈ (runMerge snap lid db).rlogs,
      l ∈ db.rlogs ∨ l.action = "SKIPPED" ∨ l.action = "UPDATED") := by
  unfold runMerge
  have hcnoop := processCategories_noop lid snap.categories db hpres
  have hwf1 : DbWF (processCategories lid db snap.categories) :=
    DbWF_foldl _ (fun d x h => DbWF_processCategoryItem lid d x h) _ db hwf
  have hest1 : ∀ r ∈ snap.transactions,
      establishedAt (processCategories lid db snap.categories) r :=
    fun r hr => establishedAt_of_eq hcnoop.2.1 hcnoop.2.2.1 r (hest r hr)
  have h2 := processTransactions_second lid snap.transactions
    (processCategories lid db snap.categories) hwf1 hsw.cats hsw.types hest1
  have hnoop3 : softDeletePass (snapHashes snap.transactions) lid
      (processTransactions lid (processCategories lid db snap.categories)
        snap.transactions) =
      processTransactions lid (processCategories lid db snap.categories)
        snap.transactions := by
    refine softDeletePass_noop _ lid _ ?_
    intro t ht hdel2
    rw [h2.2.1, hcnoop.2.2.1] at ht
    exact hdel t ht hdel2
  rw [hnoop3]
  refine ⟨h2.1.trans hcnoop.2.1, h2.2.1.trans hcnoop.2.2.1, ?_, ?_⟩
  · intro bid
    refine (h2.2.2.1 bid).trans ?_
    rw [hcnoop.1]
  · intro l hl
    rcases h2.2.2.2 l hl with hin | hSU
    · rcases hcnoop.2.2.2.2.2.2 l hin with h0 | hS
      · exact Or.inl h0
      · exact Or.inr (Or.inl hS)
    · exact Or.inr hSU

/-! ## Claim theorem: reprocessing the identical snapshot (C2) -/

/-- Fixture for C2: a snapshot with one category and one fully-populated
transaction record (100.00 EXPENSE). -/
def snapSecondPass : DatabaseSnapshot :=
  { categories := [⟨some "c"⟩],
    transactions := [⟨some "h", some "m", some "c", some "EXPENSE", some 10000, none⟩] }

/-- Fixture for C2: a store holding an EXPENSE of 50.00 whose effect is
applied to its category's bucket. -/
def dbPartialStored : Db :=
  { buckets := [⟨1, "c", none, some (-5000)⟩],
    categories := [⟨1, "c", some 1⟩],
    transactions := [⟨1, some 5000, "m", "c", some "EXPENSE", some "h2", false⟩],
    nextBucketId := 2, nextCategoryId := 2, nextTransactionId := 2 }

/-- Fixture for C2: the same dedup key reprocessed with an amount but
neither category nor type. -/
def snapPartial : DatabaseSnapshot :=
  { transactions := [⟨some "h2", none, none, none, some 5000, none⟩] }

/-- C2 counterexample: reprocessing an identical snapshot is *not* all
SKIPPED — a record that provides an amount always re-registers as changed
(the stored `Decimal` never `==` the snapshot's `str`), so its second-pass
row log is UPDATED; and when the record omits `category` and
`transaction_type` the second pass even moves a bucket balance (here from
0.00 to 50.00: the revert runs on the stored category/type but the
reapply reads only the record's absent fields). -/
theorem reprocess_not_idempotent_counterexample :
    (applySnapshot snapSecondPass (applySnapshot snapSecondPass {})).rlogs.map
      ImportRowLog.action = ["ADDED", "ADDED", "SKIPPED", "UPDATED"] ∧
    bucketBalance (applySnapshot snapPartial dbPartialStored) 1 = 0 ∧
    bucketBalance (applySnapshot snapPartial
      (applySnapshot snapPartial dbPartialStored)) 1 = 5000 :=
  ⟨by decide, by decide, by decide⟩

/-- C2 (amended): for a well-keyed snapshot whose transaction records all
provide `merchant_name`, `category` and `transaction_type`, reprocessing
the identical snapshot right after a first pass causes zero net change to
every bucket balance, and every row log of the second pass is either
SKIPPED or UPDATED (not necessarily SKIPPED: a provided amount always
re-registers as changed because the stored `Decimal` never equals the
snapshot's `str` under Python `!=`). -/
theorem second_pass_no_net_change (snap : DatabaseSnapshot) (db0 : Db)
    (hwf : DbWF db0) (hsw : SnapWF snap) :
    (∀ bid, bucketBalance (applySnapshot snap (applySnapshot snap db0)) bid =
      bucketBalance (applySnapshot snap db0) bid) ∧
    (∀ l ∈ (applySnapshot snap (applySnapshot snap db0)).rlogs,
      l ∈ (applySnapshot snap db0).rlogs ∨ l.action = "SKIPPED" ∨
        l.action = "UPDATED") := by
  have h1 := runMerge_establishes snap db0.nextImportLogId
    (startedState "backup.json" db0) (DbWF_startedState "backup.json" db0 hwf) hsw
  have hwfd1 : DbWF (applySnapshot snap db0) :=
    ⟨h1.1.bucketIds, h1.1.catIds, h1.1.txnIds, h1.1.eventIds, h1.1.bucketFresh,
      h1.1.catFresh, h1.1.txnFresh, h1.1.catBucketLink, h1.1.txnHashes⟩
  have h2 := runMerge_second snap (applySnapshot snap db0).nextImportLogId
    (startedState "backup.json" (applySnapshot snap db0))
    (DbWF_startedState "backup.json" (applySnapshot snap db0) hwfd1) hsw
    (fun item hi nm hnm => h1.2.1 item hi nm hnm)
    (fun r hr => h1.2.2.1 r hr)
    (fun t ht hd => h1.2.2.2 t ht hd)
  constructor
  · intro bid
    exact h2.2.2.1 bid
  · intro l hl
    exact h2.2.2.2 l hl

/-- C2 amended witness: for the one-category snapshot over the empty
store, the second pass leaves bucket 1's balance where the first pass put
it. -/
theorem second_pass_no_net_change_witness :
    bucketBalance (applySnapshot snapSecondPass (applySnapshot snapSecondPass {})) 1 =
      bucketBalance (applySnapshot snapSecondPass ({} : Db)) 1 :=
  (second_pass_no_net_change snapSecondPass {} (by constructor <;> simp)
    ⟨fun r hr => by
        simp only [snapSecondPass, List.mem_singleton] at hr
        subst hr
        exact ⟨"h", rfl, rfl⟩,
     by decide,
     fun r hr => by
        simp only [snapSecondPass, List.mem_singleton] at hr
        subst hr
        rfl,
     fun r hr => by
        simp only [snapSecondPass, List.mem_singleton] at hr
        subst hr
        rfl,
     fun r hr => by
        simp only [snapSecondPass, List.mem_singleton] at hr
        subst hr
        rfl⟩).1 1

end Pennywise
